import Mathlib

/-!
# S5Late DFU-upload hook: a shallow embedding

Embedding of `src/shellcode/libc.c` (`memcpy`) and `src/shellcode/hook.c`
(`hook`), parameterised by the per-target configuration header
(`src/shellcode/configs/*/hook.h`).

Conventions of the embedding:

* The machine is a 32-bit little-endian ARM.  Memory is a total map from
  addresses to bytes; every address the code computes is reduced modulo `2 ^ 32`.
* `size_t` and `uint32_t` values are naturals below `2 ^ 32`; `int` values are
  integers obtained through `toInt32` (two's complement).
* External firmware routines are parameters (`Ext`).  A routine whose pointer type
  is not `noreturn` returns, and its effect on memory is arbitrary.  The variadic
  trampoline of the Call command targets an arbitrary address and may not return.
  The `noreturn` routines (`reboot`, `prepare_and_jump`) end the execution.
* Every call of an external routine is logged as an `Event` carrying the target
  address and the arguments.
-/

namespace S5Late

/-! ## Memory -/

/-- One byte. -/
abbrev Byte := Fin 256

/-- Machine memory: a byte at every address. -/
abbrev Mem := Nat → Byte

/-- Memory after storing byte `b` at address `a`. -/
def Mem.store (m : Mem) (a : Nat) (b : Byte) : Mem :=
  fun x => if x = a then b else m x

/-- Conversion of a 32-bit word to `int` (two's complement). -/
def toInt32 (w : Nat) : Int :=
  if w % 2 ^ 32 < 2 ^ 31 then ((w % 2 ^ 32 : Nat) : Int)
  else ((w % 2 ^ 32 : Nat) : Int) - 2 ^ 32

/-- Result of `int` arithmetic, wrapped to 32 bits. -/
def wrapInt (z : Int) : Int := toInt32 (z % 2 ^ 32).toNat

/-- Address of `p[i]` for a byte pointer `p` and an `int` index `i`
(also `p + i` on `void *`, which the GNU dialect scales by one). -/
def index (p : Nat) (i : Int) : Nat := (((p : Int) + i) % 2 ^ 32).toNat

/-- Value of `a - b` in `size_t` arithmetic, `b` being an `int`. -/
def sub32 (a : Nat) (b : Int) : Nat := (((a : Int) - b) % 2 ^ 32).toNat

/-- The `i`-th byte (little-endian) of a word. -/
def byteOf (w i : Nat) : Byte := ⟨w / 256 ^ i % 256, Nat.mod_lt _ (by decide)⟩

/-- Load of a `uint32_t` at address `a`. -/
def load32 (m : Mem) (a : Nat) : Nat :=
  (m (a % 2 ^ 32)).val + 256 * (m ((a + 1) % 2 ^ 32)).val
    + 65536 * (m ((a + 2) % 2 ^ 32)).val + 16777216 * (m ((a + 3) % 2 ^ 32)).val

/-- Store of the `uint32_t` `w` at address `a`. -/
def store32 (m : Mem) (a w : Nat) : Mem :=
  (((m.store (a % 2 ^ 32) (byteOf w 0)).store ((a + 1) % 2 ^ 32) (byteOf w 1)).store
    ((a + 2) % 2 ^ 32) (byteOf w 2)).store ((a + 3) % 2 ^ 32) (byteOf w 3)

/-- The word a `uint32_t` load reads from four consecutive bytes. -/
def wordOfBytes (b0 b1 b2 b3 : Byte) : Nat :=
  b0.val + 256 * b1.val + 65536 * b2.val + 16777216 * b3.val

/-! ## `libc.c` -/

/-- What a call of `memcpy` leaves: the memory, the returned pointer and the
number of byte stores its loop executed. -/
structure MemcpyResult where
  mem : Mem
  ret : Nat
  stores : Nat

/-- The loop `while (len--) { d[pos] = s[pos]; pos += dir; }`; the first argument
is the remaining value of `len`, `k` counts the stores done so far. -/
def memcpy_loop (d s : Nat) (dir : Int) : Nat → Int → Mem → Nat → Mem × Nat
  | 0, _, m, k => (m, k)
  | n + 1, pos, m, k =>
      memcpy_loop d s dir n (wrapInt (pos + dir))
        (m.store (index d pos) (m (index s pos))) (k + 1)

/-- The bundled `memcpy(dst, src, len)`. -/
def memcpy (m : Mem) (dst src len : Nat) : MemcpyResult :=
  let pos : Int := if dst > src then toInt32 (sub32 len 1) else 0
  let dir : Int := if dst > src then -1 else 1
  let r := memcpy_loop dst src dir len pos m 0
  { mem := r.1, ret := dst, stores := r.2 }

/-! ## Target configuration (`configs/*/hook.h`) -/

/-- The constants a configuration header defines and `hook.c` uses. -/
structure Config where
  EFI : Bool
  SRAM_BASE : Nat
  TARGET_USB_SHUTDOWN : Nat
  TARGET_STATE_SET : Nat
  TARGET_REBOOT : Nat
  TARGET_AES_DECRYPT : Nat
  TARGET_AES_ENCRYPT : Nat
  TARGET_JUMP : Nat

/-- The header `configs/s5l8723/hook.h`. -/
def s5l8723 : Config :=
  { EFI := true
    SRAM_BASE := 0x22000000
    TARGET_USB_SHUTDOWN := 0x20009F14
    TARGET_STATE_SET := 0x20003ACC
    TARGET_REBOOT := 0x20003ABC
    TARGET_AES_DECRYPT := 0x20002304
    TARGET_AES_ENCRYPT := 0x200023E8
    TARGET_JUMP := 0x20003AF8 }

/-- The header `configs/s5l8443/hook.h`. -/
def s5l8443 : Config :=
  { EFI := false
    SRAM_BASE := 0x22000000
    TARGET_USB_SHUTDOWN := 0x20008BBC
    TARGET_STATE_SET := 0x200031C8
    TARGET_REBOOT := 0x200031B8
    TARGET_AES_DECRYPT := 0x20001BC4
    TARGET_AES_ENCRYPT := 0x20001C3C
    TARGET_JUMP := 0x200031F4 }

/-! ## External routines -/

/-- Behaviour of the firmware routines `hook` calls through its function pointers.
The `noreturn` routines need no behaviour: a call of one ends the execution. -/
structure Ext where
  usb_shutdown : Mem → Mem
  state_set : Int → Int → Mem → Mem
  aes_decrypt : Nat → Nat → Nat → Int → Nat → Nat → Mem → Mem
  aes_encrypt : Nat → Nat → Nat → Int → Nat → Nat → Mem → Mem
  tramp : Nat → List Nat → Mem → Option (Mem × Nat)

/-- A call of an external routine: the address called and the arguments passed. -/
inductive Event where
  | usb_shutdown (target : Nat)
  | state_set (target : Nat) (x y : Int)
  | prepare_and_jump (target : Nat) (addr : Nat)
  | reboot (target : Nat)
  | aes_decrypt (target : Nat) (inp out len : Nat) (key : Int) (user_key user_iv : Nat)
  | aes_encrypt (target : Nat) (inp out len : Nat) (key : Int) (user_key user_iv : Nat)
  | tramp (func : Nat) (args : List Nat)
  deriving DecidableEq

/-- What one run of `hook` does: `status` is the returned `int`, or `none` when
control does not come back to the caller; `mem` is the memory at that point;
`trace` lists the external calls in order; `copied` is the number of bytes
`memcpy` stored from the base of the shared buffer on. -/
structure Outcome where
  status : Option Int
  mem : Mem
  trace : List Event
  copied : Nat

/-! ## `hook.c` -/

/-- The value of a four-character constant such as `'rest'`. -/
def multichar (a b c d : Char) : Nat :=
  ((a.toNat * 256 + b.toNat) * 256 + c.toNat) * 256 + d.toNat

def MAX_OUT_LEN : Nat := 0x40

def kHookCommandReset : Nat := multichar 'r' 'e' 's' 't'
def kHookCommandDump : Nat := multichar 'd' 'u' 'm' 'p'
def kHookCommandAESEncrypt : Nat := multichar 'a' 'e' 's' 'e'
def kHookCommandAESDecrypt : Nat := multichar 'a' 'e' 's' 'd'
def kHookCommandCall : Nat := multichar 'f' 'u' 'n' 'c'

def EFI_FVH_OFFSET : Nat := 0x28

/-- The array `efi_fvh_magic`, read as a `uint32_t`. -/
def efi_fvh_magic : Nat :=
  wordOfBytes ⟨'_'.toNat, by decide⟩ ⟨'F'.toNat, by decide⟩
    ⟨'V'.toNat, by decide⟩ ⟨'H'.toNat, by decide⟩

def RESET_VECTOR : Nat := 0xEA00000B

/-- The condition of the `if` in the `default` case, for either value of `EFI`. -/
def staging_check (cfg : Config) (m : Mem) : Bool :=
  if cfg.EFI then
    load32 m (cfg.SRAM_BASE + EFI_FVH_OFFSET) == efi_fvh_magic
  else
    load32 m cfg.SRAM_BASE == RESET_VECTOR

/-- The word `cmd->args[i]` (the load reduces the address modulo `2 ^ 32`). -/
def cmd_arg (m : Mem) (cmd i : Nat) : Nat := load32 m (cmd + 4 + 4 * i)

/-- The function `hook(void **state)`.  `ret_addr` is the address of the local
`ret` of the Call case, the only local whose address is taken. -/
def hook (cfg : Config) (ext : Ext) (ret_addr : Nat) (state : Nat) (m : Mem) : Outcome :=
  -- struct cmd *cmd = *state;  switch (cmd->cmd)
  let cmd := load32 m state
  let tag := load32 m cmd
  let arg := cmd_arg m cmd
  if tag = kHookCommandReset then
    -- usb_shutdown(); reboot();
    let m1 := ext.usb_shutdown m
    { status := none, mem := m1,
      trace := [Event.usb_shutdown cfg.TARGET_USB_SHUTDOWN, Event.reboot cfg.TARGET_REBOOT],
      copied := 0 }
  else if tag = kHookCommandDump then
    -- addr = cmd->args[0]; len = cmd->args[1]; memcpy(*state, addr, len);
    let addr := arg 0
    let len := arg 1
    if len > MAX_OUT_LEN then
      { status := some (-1), mem := m, trace := [], copied := 0 }
    else
      let r := memcpy m (load32 m state) addr len
      { status := some 0, mem := r.mem, trace := [], copied := r.stores }
  else if tag = kHookCommandAESEncrypt ∨ tag = kHookCommandAESDecrypt then
    -- dest = *state; buf = &cmd->args[3]; aes_*(buf, buf, len, key, NULL, NULL);
    -- memcpy(dest, buf + off, len - off);
    let dest := load32 m state
    let len := arg 0
    let key := toInt32 (arg 1)
    let iv_hack : Bool := arg 2 != 0
    let buf := index cmd 16
    if len > MAX_OUT_LEN then
      { status := some (-1), mem := m, trace := [], copied := 0 }
    else
      let m1 :=
        if load32 m cmd = kHookCommandAESDecrypt then ext.aes_decrypt buf buf len key 0 0 m
        else ext.aes_encrypt buf buf len key 0 0 m
      let ev :=
        if load32 m cmd = kHookCommandAESDecrypt then
          Event.aes_decrypt cfg.TARGET_AES_DECRYPT buf buf len key 0 0
        else Event.aes_encrypt cfg.TARGET_AES_ENCRYPT buf buf len key 0 0
      let off : Int := if iv_hack then 0x10 else 0x0
      let r := memcpy m1 dest (index buf off) (sub32 len off)
      { status := some 0, mem := r.mem, trace := [ev], copied := r.stores }
  else if tag = kHookCommandCall then
    -- ret = tramp(args[0], .., args[7]) with args = &cmd->args[1];
    -- memcpy(*state, &ret, sizeof(ret));
    let func := arg 0
    let args := (List.range 8).map (fun i => arg (1 + i))
    match ext.tramp func args m with
    | none => { status := none, mem := m, trace := [Event.tramp func args], copied := 0 }
    | some (m1, v) =>
        let ret := v % 2 ^ 32
        let m2 := store32 m1 ret_addr ret
        let r := memcpy m2 (load32 m2 state) ret_addr 4
        { status := some 0, mem := r.mem, trace := [Event.tramp func args], copied := r.stores }
  else if staging_check cfg m then
    -- default: usb_shutdown(); state_set(1, 0); prepare_and_jump(SRAM_BASE);
    let m1 := ext.usb_shutdown m
    let m2 := ext.state_set 1 0 m1
    { status := none, mem := m2,
      trace := [Event.usb_shutdown cfg.TARGET_USB_SHUTDOWN,
                Event.state_set cfg.TARGET_STATE_SET 1 0,
                Event.prepare_and_jump cfg.TARGET_JUMP cfg.SRAM_BASE],
      copied := 0 }
  else
    { status := some (-1), mem := m, trace := [], copied := 0 }

/-! ## Concrete machines used to instantiate the theorems -/

/-- Memory holding zero everywhere. -/
def zeroMem : Mem := fun _ => 0

/-- Memory after storing the words `ws` consecutively from address `a` on. -/
def put32s (m : Mem) (a : Nat) : List Nat → Mem
  | [] => m
  | w :: ws => put32s (store32 m a w) (a + 4) ws

/-- A toy firmware: the cipher adds one to (encrypt) or subtracts one from (decrypt)
each of the `len` bytes, the other routines leave memory alone, and the code at any
call target returns the sum of its address and its arguments. -/
def toyExt : Ext :=
  { usb_shutdown := fun m => m
    state_set := fun _ _ m => m
    aes_decrypt := fun inp out len _ _ _ m =>
      fun a => if out ≤ a ∧ a < out + len then m (inp + (a - out)) - 1 else m a
    aes_encrypt := fun inp out len _ _ _ m =>
      fun a => if out ≤ a ∧ a < out + len then m (inp + (a - out)) + 1 else m a
    tramp := fun func args m => some (m, func + args.sum) }

/-- The DFU state lives at `0x100` and points to a buffer at `0x1000`. -/
def stateAt : Mem := put32s zeroMem 0x100 [0x1000]

/-- Dump of 8 bytes from `0x1002`, a source range that overlaps the buffer. -/
def memDump : Mem :=
  put32s stateAt 0x1000 [kHookCommandDump, 0x1002, 8, 0x11223344, 0x55667788]

/-- Dump with the declared length `0xFFFFFFFF`. -/
def memDumpLong : Mem :=
  put32s stateAt 0x1000 [kHookCommandDump, 0x1002, 0xFFFFFFFF, 0x11223344]

/-- AES encrypt of 8 inline bytes under key class 1, `iv_hack` clear. -/
def memAes : Mem :=
  put32s stateAt 0x1000 [kHookCommandAESEncrypt, 8, 1, 0, 0x04030201, 0x08070605]

/-- AES decrypt of 32 inline bytes under key class 2, `iv_hack` set. -/
def memAesHack : Mem :=
  put32s stateAt 0x1000 [kHookCommandAESDecrypt, 32, 2, 1,
    0x04030201, 0x08070605, 0x0C0B0A09, 0x100F0E0D,
    0x14131211, 0x18171615, 0x1C1B1A19, 0x201F1E1D]

/-- AES encrypt with `iv_hack` set and the declared length 80. -/
def memAesLong : Mem :=
  put32s stateAt 0x1000 [kHookCommandAESEncrypt, 80, 0, 1, 0x04030201, 0x08070605]

/-- AES encrypt with `iv_hack` set and the declared length 0; the word at buffer
offset 96 is a marker. -/
def memAesShort : Mem :=
  put32s (put32s stateAt 0x1000 [kHookCommandAESEncrypt, 0, 0, 1]) 0x1060 [0xAABBCCDD]

/-- Call of the code at `0x5000` with the arguments 1 .. 8. -/
def memCall : Mem :=
  put32s stateAt 0x1000 [kHookCommandCall, 0x5000, 1, 2, 3, 4, 5, 6, 7, 8]

/-- An unrecognised tag, with the EFI magic `_FVH` at `SRAM_BASE + 0x28`. -/
def memBoot : Mem :=
  put32s (put32s stateAt 0x1000 [0x12345678]) 0x22000028 [0x4856465F]

/-- An unrecognised tag and an empty staging region. -/
def memIdle : Mem := put32s stateAt 0x1000 [0x12345678]

/-- The Reset command, followed by arbitrary words. -/
def memReset : Mem :=
  put32s (put32s stateAt 0x1000 [kHookCommandReset, 0xDEADBEEF, 0xFFFFFFFF]) 0x22000028
    [0x4856465F]

/-- AES decrypt of the 8 bytes the toy cipher produces from the data of `memAes`,
under the same key class, `iv_hack` clear. -/
def memAesBack : Mem :=
  put32s stateAt 0x1000 [kHookCommandAESDecrypt, 8, 1, 0, 0x05040302, 0x09080706]

/-! ## The dispatch of `hook`, taken apart -/

/-- The six blocks of the `switch` in `hook`: one per `case` label and `default`. -/
inductive Action where
  | Reset
  | Dump
  | AESEncrypt
  | AESDecrypt
  | Call
  | Fallback
  deriving DecidableEq

/-- The label `switch (cmd->cmd)` jumps to for a tag value. -/
def dispatch (tag : Nat) : Action :=
  if tag = kHookCommandReset then Action.Reset
  else if tag = kHookCommandDump then Action.Dump
  else if tag = kHookCommandAESEncrypt then Action.AESEncrypt
  else if tag = kHookCommandAESDecrypt then Action.AESDecrypt
  else if tag = kHookCommandCall then Action.Call
  else Action.Fallback

/-- The block shared by the labels `kHookCommandAESEncrypt` and
`kHookCommandAESDecrypt`; `decrypt` is the outcome of the test
`cmd->cmd == kHookCommandAESDecrypt`. -/
def aes_block (decrypt : Bool) (cfg : Config) (ext : Ext) (state : Nat) (m : Mem) : Outcome :=
  let cmd := load32 m state
  let dest := load32 m state
  let len := cmd_arg m cmd 0
  let key := toInt32 (cmd_arg m cmd 1)
  let iv_hack : Bool := cmd_arg m cmd 2 != 0
  let buf := index cmd 16
  if len > MAX_OUT_LEN then
    { status := some (-1), mem := m, trace := [], copied := 0 }
  else
    let m1 :=
      if decrypt then ext.aes_decrypt buf buf len key 0 0 m
      else ext.aes_encrypt buf buf len key 0 0 m
    let ev :=
      if decrypt then Event.aes_decrypt cfg.TARGET_AES_DECRYPT buf buf len key 0 0
      else Event.aes_encrypt cfg.TARGET_AES_ENCRYPT buf buf len key 0 0
    let off : Int := if iv_hack then 0x10 else 0x0
    let r := memcpy m1 dest (index buf off) (sub32 len off)
    { status := some 0, mem := r.mem, trace := [ev], copied := r.stores }

/-- What the block of `hook` behind each label does. -/
def perform (a : Action) (cfg : Config) (ext : Ext) (ret_addr : Nat) (state : Nat) (m : Mem) :
    Outcome :=
  let cmd := load32 m state
  let arg := cmd_arg m cmd
  match a with
  | Action.Reset =>
      { status := none, mem := ext.usb_shutdown m,
        trace := [Event.usb_shutdown cfg.TARGET_USB_SHUTDOWN, Event.reboot cfg.TARGET_REBOOT],
        copied := 0 }
  | Action.Dump =>
      if arg 1 > MAX_OUT_LEN then
        { status := some (-1), mem := m, trace := [], copied := 0 }
      else
        let r := memcpy m (load32 m state) (arg 0) (arg 1)
        { status := some 0, mem := r.mem, trace := [], copied := r.stores }
  | Action.AESEncrypt => aes_block false cfg ext state m
  | Action.AESDecrypt => aes_block true cfg ext state m
  | Action.Call =>
      let func := arg 0
      let args := (List.range 8).map (fun i => arg (1 + i))
      match ext.tramp func args m with
      | none => { status := none, mem := m, trace := [Event.tramp func args], copied := 0 }
      | some (m1, v) =>
          let ret := v % 2 ^ 32
          let m2 := store32 m1 ret_addr ret
          let r := memcpy m2 (load32 m2 state) ret_addr 4
          { status := some 0, mem := r.mem, trace := [Event.tramp func args],
            copied := r.stores }
  | Action.Fallback =>
      if staging_check cfg m then
        { status := none, mem := ext.state_set 1 0 (ext.usb_shutdown m),
          trace := [Event.usb_shutdown cfg.TARGET_USB_SHUTDOWN,
                    Event.state_set cfg.TARGET_STATE_SET 1 0,
                    Event.prepare_and_jump cfg.TARGET_JUMP cfg.SRAM_BASE],
          copied := 0 }
      else
        { status := some (-1), mem := m, trace := [], copied := 0 }

/-- Memory whose byte at address `a` is `a` modulo 256. -/
def rampMem : Mem := fun a => ⟨a % 256, Nat.mod_lt _ (by decide)⟩

/-! ## The standalone `src/hook.c` -/

namespace Standalone

def SRAM_BASE : Nat := 0x22000000
def MAX_OUT_LEN : Nat := 0x40

/-- The address the function pointer `usb_shutdown` is initialised with. -/
def usb_shutdown : Nat := 0x20009F14
/-- The address the function pointer `state_set` is initialised with. -/
def state_set : Nat := 0x20003ACC
/-- The address the function pointer `reboot` is initialised with. -/
def reboot : Nat := 0x20003ABC
/-- The address the function pointer `aes_encrypt` is initialised with. -/
def aes_encrypt : Nat := 0x200023E8
/-- The address the function pointer `aes_decrypt` is initialised with. -/
def aes_decrypt : Nat := 0x20002304
/-- The address the function pointer `prepare_and_jump` is initialised with. -/
def prepare_and_jump : Nat := 0x20003AF8

def kHookCommandReset : Nat := multichar 'r' 'e' 's' 't'
def kHookCommandDump : Nat := multichar 'd' 'u' 'm' 'p'
def kHookCommandAESEncrypt : Nat := multichar 'a' 'e' 's' 'e'
def kHookCommandAESDecrypt : Nat := multichar 'a' 'e' 's' 'd'
def kHookCommandCall : Nat := multichar 'f' 'u' 'n' 'c'

def EFI_FVH_OFFSET : Nat := 0x28

/-- The array `efi_fvh_magic`, read as a `uint32_t`. -/
def efi_fvh_magic : Nat :=
  wordOfBytes ⟨'_'.toNat, by decide⟩ ⟨'F'.toNat, by decide⟩
    ⟨'V'.toNat, by decide⟩ ⟨'H'.toNat, by decide⟩

/-- The function `hook(void **state)` of `src/hook.c`.  The file includes a `libc.c`
and a `global_obj.h` lying next to it; it uses nothing of the header, and the `memcpy`
of that `libc.c` is the parameter `memcpy`.  `ret_addr` is the address of the local
`ret`. -/
def hook (memcpy : Mem → Nat → Nat → Nat → MemcpyResult) (ext : Ext) (ret_addr : Nat)
    (state : Nat) (m : Mem) : Outcome :=
  let cmd := load32 m state
  let tag := load32 m cmd
  let arg := cmd_arg m cmd
  if tag = kHookCommandReset then
    let m1 := ext.usb_shutdown m
    { status := none, mem := m1,
      trace := [Event.usb_shutdown usb_shutdown, Event.reboot reboot],
      copied := 0 }
  else if tag = kHookCommandDump then
    let addr := arg 0
    let len := arg 1
    if len > MAX_OUT_LEN then
      { status := some (-1), mem := m, trace := [], copied := 0 }
    else
      let r := memcpy m (load32 m state) addr len
      { status := some 0, mem := r.mem, trace := [], copied := r.stores }
  else if tag = kHookCommandAESEncrypt ∨ tag = kHookCommandAESDecrypt then
    let dest := load32 m state
    let len := arg 0
    let key := toInt32 (arg 1)
    let iv_hack : Bool := arg 2 != 0
    let buf := index cmd 16
    if len > MAX_OUT_LEN then
      { status := some (-1), mem := m, trace := [], copied := 0 }
    else
      let m1 :=
        if load32 m cmd = kHookCommandAESDecrypt then ext.aes_decrypt buf buf len key 0 0 m
        else ext.aes_encrypt buf buf len key 0 0 m
      let ev :=
        if load32 m cmd = kHookCommandAESDecrypt then
          Event.aes_decrypt aes_decrypt buf buf len key 0 0
        else Event.aes_encrypt aes_encrypt buf buf len key 0 0
      let off : Int := if iv_hack then 0x10 else 0x0
      let r := memcpy m1 dest (index buf off) (sub32 len off)
      { status := some 0, mem := r.mem, trace := [ev], copied := r.stores }
  else if tag = kHookCommandCall then
    let func := arg 0
    let args := (List.range 8).map (fun i => arg (1 + i))
    match ext.tramp func args m with
    | none => { status := none, mem := m, trace := [Event.tramp func args], copied := 0 }
    | some (m1, v) =>
        let ret := v % 2 ^ 32
        let m2 := store32 m1 ret_addr ret
        let r := memcpy m2 (load32 m2 state) ret_addr 4
        { status := some 0, mem := r.mem, trace := [Event.tramp func args], copied := r.stores }
  else if load32 m (SRAM_BASE + EFI_FVH_OFFSET) == efi_fvh_magic then
    let m1 := ext.usb_shutdown m
    let m2 := ext.state_set 1 0 m1
    { status := none, mem := m2,
      trace := [Event.usb_shutdown usb_shutdown,
                Event.state_set state_set 1 0,
                Event.prepare_and_jump prepare_and_jump SRAM_BASE],
      copied := 0 }
  else
    { status := some (-1), mem := m, trace := [], copied := 0 }

end Standalone

/-! ## Arithmetic of addresses and words -/

theorem index_lt (p : Nat) (i : Int) : index p i < 2 ^ 32 := by
  unfold index; omega

theorem index_wrapInt (p : Nat) (z y : Int) : index p (wrapInt z + y) = index p (z + y) := by
  unfold index wrapInt toInt32
  split <;> omega

theorem index_fwd (p j : Nat) : index p (0 + (j : Int) * 1) = (p + j) % 2 ^ 32 := by
  unfold index; omega

theorem index_back (p len j : Nat) (hj : j < len) :
    index p (toInt32 (sub32 len 1) + (j : Int) * (-1)) = (p + (len - 1 - j)) % 2 ^ 32 := by
  unfold index toInt32 sub32
  split <;> omega

theorem index_step (p : Nat) (pos dir : Int) (j : Nat) :
    index p (wrapInt (pos + dir) + (j : Int) * dir)
      = index p (pos + ((j + 1 : Nat) : Int) * dir) := by
  rw [index_wrapInt]
  congr 1
  push_cast
  ring

theorem load32_lt (m : Mem) (a : Nat) : load32 m a < 2 ^ 32 := by
  unfold load32
  have h0 := (m (a % 2 ^ 32)).isLt
  have h1 := (m ((a + 1) % 2 ^ 32)).isLt
  have h2 := (m ((a + 2) % 2 ^ 32)).isLt
  have h3 := (m ((a + 3) % 2 ^ 32)).isLt
  omega

theorem Mem.store_same (m : Mem) (a : Nat) (b : Byte) : (m.store a b) a = b := by
  simp [Mem.store]

theorem Mem.store_other (m : Mem) (a x : Nat) (b : Byte) (h : x ≠ a) :
    (m.store a b) x = m x := by
  simp [Mem.store, h]

/-! ## The copy loop -/

theorem memcpy_loop_stores (d s : Nat) (dir : Int) :
    ∀ (n : Nat) (pos : Int) (m : Mem) (k : Nat),
      (memcpy_loop d s dir n pos m k).2 = k + n := by
  intro n
  induction n with
  | zero => intro pos m k; simp [memcpy_loop]
  | succ n ih =>
    intro pos m k
    rw [memcpy_loop, ih]
    omega

/-- An address the loop never stores to keeps its byte. -/
theorem memcpy_loop_frame (d s : Nat) (dir : Int) (a : Nat) :
    ∀ (n : Nat) (pos : Int) (m : Mem) (k : Nat),
      (∀ j, j < n → a ≠ index d (pos + (j : Int) * dir)) →
      (memcpy_loop d s dir n pos m k).1 a = m a := by
  intro n
  induction n with
  | zero => intro pos m k _; simp [memcpy_loop]
  | succ n ih =>
    intro pos m k h
    rw [memcpy_loop, ih]
    · apply Mem.store_other
      have h0 := h 0 (Nat.succ_pos n)
      simpa using h0
    · intro j hj
      rw [index_step]
      exact h (j + 1) (Nat.succ_lt_succ hj)

/-- The byte stored in iteration `j` is the original source byte and survives,
provided no later iteration stores to the same address and no earlier iteration
stored to the address iteration `j` reads. -/
theorem memcpy_loop_value (d s : Nat) (dir : Int) :
    ∀ (n : Nat) (pos : Int) (m : Mem) (k : Nat) (j : Nat), j < n →
      (∀ i, j < i → i < n →
        index d (pos + (i : Int) * dir) ≠ index d (pos + (j : Int) * dir)) →
      (∀ i, i < j → index d (pos + (i : Int) * dir) ≠ index s (pos + (j : Int) * dir)) →
      (memcpy_loop d s dir n pos m k).1 (index d (pos + (j : Int) * dir))
        = m (index s (pos + (j : Int) * dir)) := by
  intro n
  induction n with
  | zero => intro pos m k j hj; omega
  | succ n ih =>
    intro pos m k j hj hdd hds
    rw [memcpy_loop]
    cases j with
    | zero =>
      rw [memcpy_loop_frame]
      · simp [Mem.store_same]
      · intro i hi
        rw [index_step]
        exact fun h => hdd (i + 1) (Nat.succ_pos i) (Nat.succ_lt_succ hi) h.symm
    | succ j =>
      have hj1 : j < n := Nat.lt_of_succ_lt_succ hj
      have key := ih (wrapInt (pos + dir)) (m.store (index d pos) (m (index s pos))) (k + 1)
        j hj1
        (fun i hlt hi => by
          rw [index_step, index_step]
          exact hdd (i + 1) (Nat.succ_lt_succ hlt) (Nat.succ_lt_succ hi))
        (fun i hlt => by
          rw [index_step, index_step]
          exact hds (i + 1) (Nat.succ_lt_succ hlt))
      rw [index_step, index_step] at key
      rw [key]
      apply Mem.store_other
      have h0 := hds 0 (Nat.succ_pos j)
      simp at h0
      exact fun h => h0 h.symm

/-! ## `memcpy` -/

theorem memcpy_stores (m : Mem) (d s len : Nat) : (memcpy m d s len).stores = len := by
  simp [memcpy, memcpy_loop_stores]

theorem memcpy_frame (m : Mem) (d s len a : Nat)
    (h : ∀ i, i < len → a ≠ (d + i) % 2 ^ 32) : (memcpy m d s len).mem a = m a := by
  unfold memcpy
  by_cases hds : d > s
  · simp only [hds, if_true]
    apply memcpy_loop_frame
    intro j hj
    rw [index_back d len j hj]
    exact h (len - 1 - j) (by omega)
  · simp only [hds, if_false]
    apply memcpy_loop_frame
    intro j hj
    rw [index_fwd]
    exact h j hj

/-- Overlap-safe copy: when the range the chosen direction depends on does not run
past the end of the address space, every destination byte receives the byte the
source held before the call. -/
theorem memcpy_value (m : Mem) (d s len : Nat) (hlen : len ≤ 2 ^ 32)
    (hfwd : d ≤ s → s + len ≤ 2 ^ 32) (hbwd : s < d → d + len ≤ 2 ^ 32) :
    ∀ i, i < len → (memcpy m d s len).mem ((d + i) % 2 ^ 32) = m ((s + i) % 2 ^ 32) := by
  intro i hi
  unfold memcpy
  by_cases hds : d > s
  · simp only [hds, if_true]
    have hb := hbwd hds
    have key := memcpy_loop_value d s (-1) len (toInt32 (sub32 len 1)) m 0
      (len - 1 - i) (by omega)
      (fun a ha hal => by
        rw [index_back d len a hal, index_back d len _ (by omega)]
        omega)
      (fun a ha => by
        rw [index_back d len a (by omega), index_back s len _ (by omega)]
        omega)
    rw [index_back d len _ (by omega), index_back s len _ (by omega)] at key
    have e : len - 1 - (len - 1 - i) = i := by omega
    rw [e] at key
    exact key
  · simp only [hds, if_false]
    have hf := hfwd (by omega)
    have key := memcpy_loop_value d s 1 len 0 m 0 i hi
      (fun a ha hal => by
        rw [index_fwd, index_fwd]
        omega)
      (fun a ha => by
        rw [index_fwd, index_fwd]
        omega)
    rw [index_fwd, index_fwd] at key
    exact key

/-! ## `hook`, case by case -/

theorem hook_dump (cfg : Config) (ext : Ext) (ret_addr state : Nat) (m : Mem)
    (htag : load32 m (load32 m state) = kHookCommandDump) :
    hook cfg ext ret_addr state m =
      if cmd_arg m (load32 m state) 1 > MAX_OUT_LEN then
        { status := some (-1), mem := m, trace := [], copied := 0 }
      else
        { status := some 0
          mem := (memcpy m (load32 m state) (cmd_arg m (load32 m state) 0)
            (cmd_arg m (load32 m state) 1)).mem
          trace := []
          copied := (memcpy m (load32 m state) (cmd_arg m (load32 m state) 0)
            (cmd_arg m (load32 m state) 1)).stores } := by
  have h1 : kHookCommandDump ≠ kHookCommandReset := by decide
  unfold hook
  simp only [htag, h1, if_false, if_true]

/-- C2: a Dump command with `len <= 64` is handled (status 0, no external call); the
first `len` bytes of the shared buffer then hold the `len` bytes that were at
`addr .. addr + len` before the call, also when the two ranges overlap, and every
byte outside the first `len` bytes of the buffer is unchanged.  The buffer and the
source range are ranges of the 32-bit address space (neither runs past its end). -/
theorem C2_dump_copies_len_bytes (cfg : Config) (ext : Ext) (ret_addr state : Nat) (m : Mem)
    (buf addr len : Nat)
    (hbuf : load32 m state = buf)
    (htag : load32 m buf = kHookCommandDump)
    (haddr : load32 m (buf + 4) = addr)
    (hlen : load32 m (buf + 8) = len)
    (hle : len ≤ MAX_OUT_LEN)
    (hdst : buf + len ≤ 2 ^ 32)
    (hsrc : addr + len ≤ 2 ^ 32) :
    (hook cfg ext ret_addr state m).status = some 0 ∧
    (hook cfg ext ret_addr state m).trace = [] ∧
    (∀ i, i < len → (hook cfg ext ret_addr state m).mem (buf + i) = m (addr + i)) ∧
    (∀ a, (a < buf ∨ buf + len ≤ a) → (hook cfg ext ret_addr state m).mem a = m a) := by
  subst hbuf
  have ha : cmd_arg m (load32 m state) 0 = addr := by simpa [cmd_arg] using haddr
  have hl : cmd_arg m (load32 m state) 1 = len := by simpa [cmd_arg] using hlen
  have hnot : ¬ len > MAX_OUT_LEN := by omega
  rw [hook_dump cfg ext ret_addr state m htag, ha, hl, if_neg hnot]
  have hm : len ≤ 64 := hle
  refine ⟨rfl, rfl, ?_, ?_⟩
  · intro i hi
    have key := memcpy_value m (load32 m state) addr len (by omega)
      (fun _ => hsrc) (fun _ => hdst) i hi
    rw [Nat.mod_eq_of_lt (by omega), Nat.mod_eq_of_lt (by omega)] at key
    exact key
  · intro a hout
    apply memcpy_frame
    intro i hi
    rw [Nat.mod_eq_of_lt (by omega)]
    omega

/-- Instance of C2 on an overlapping dump of eight bytes. -/
theorem C2_dump_copies_len_bytes_witness :
    (hook s5l8723 toyExt 0x2000 0x100 memDump).status = some 0 ∧
    (hook s5l8723 toyExt 0x2000 0x100 memDump).trace = [] ∧
    (∀ i, i < 8 →
      (hook s5l8723 toyExt 0x2000 0x100 memDump).mem (0x1000 + i) = memDump (0x1002 + i)) ∧
    (∀ a, (a < 0x1000 ∨ 0x1000 + 8 ≤ a) →
      (hook s5l8723 toyExt 0x2000 0x100 memDump).mem a = memDump a) :=
  C2_dump_copies_len_bytes s5l8723 toyExt 0x2000 0x100 memDump 0x1000 0x1002 8
    (by decide) (by decide) (by decide) (by decide) (by decide) (by decide) (by decide)

/-- C3: a Dump command whose length word exceeds 64 is not handled (status -1), no
external routine is called, nothing is copied and memory is left as it was. -/
theorem C3_dump_rejects_long (cfg : Config) (ext : Ext) (ret_addr state : Nat) (m : Mem)
    (buf len : Nat)
    (hbuf : load32 m state = buf)
    (htag : load32 m buf = kHookCommandDump)
    (hlen : load32 m (buf + 8) = len)
    (hgt : MAX_OUT_LEN < len) :
    (hook cfg ext ret_addr state m).status = some (-1) ∧
    (hook cfg ext ret_addr state m).trace = [] ∧
    (hook cfg ext ret_addr state m).copied = 0 ∧
    (hook cfg ext ret_addr state m).mem = m := by
  subst hbuf
  have hl : cmd_arg m (load32 m state) 1 = len := by simpa [cmd_arg] using hlen
  rw [hook_dump cfg ext ret_addr state m htag, hl, if_pos hgt]
  exact ⟨rfl, rfl, rfl, rfl⟩

/-- Instance of C3 with the length word `0xFFFFFFFF`. -/
theorem C3_dump_rejects_long_witness :
    MAX_OUT_LEN < 0xFFFFFFFF ∧
    (hook s5l8723 toyExt 0x2000 0x100 memDumpLong).status = some (-1) ∧
    (hook s5l8723 toyExt 0x2000 0x100 memDumpLong).trace = [] ∧
    (hook s5l8723 toyExt 0x2000 0x100 memDumpLong).copied = 0 ∧
    (hook s5l8723 toyExt 0x2000 0x100 memDumpLong).mem = memDumpLong :=
  ⟨by decide, C3_dump_rejects_long s5l8723 toyExt 0x2000 0x100 memDumpLong 0x1000 0xFFFFFFFF
    (by decide) (by decide) (by decide) (by decide)⟩

/-- Pointwise form of `memcpy_value` for a forward copy: destination byte `j` receives
the original source byte as soon as no earlier store hit the address it is read from. -/
theorem memcpy_value_fwd_at (m : Mem) (d s len j : Nat) (hds : d ≤ s) (hlen : len ≤ 2 ^ 32)
    (hj : j < len) (hclob : ∀ i, i < j → (d + i) % 2 ^ 32 ≠ (s + j) % 2 ^ 32) :
    (memcpy m d s len).mem ((d + j) % 2 ^ 32) = m ((s + j) % 2 ^ 32) := by
  unfold memcpy
  have hn : ¬ d > s := by omega
  simp only [hn, if_false]
  have key := memcpy_loop_value d s 1 len 0 m 0 j hj
    (fun a ha hal => by
      rw [index_fwd, index_fwd]
      omega)
    (fun a ha => by
      rw [index_fwd, index_fwd]
      exact hclob a ha)
  rw [index_fwd, index_fwd] at key
  exact key

theorem index_nat (p n : Nat) (h : p + n < 2 ^ 32) : index p (n : Int) = p + n := by
  unfold index; omega

theorem hook_aes (cfg : Config) (ext : Ext) (ret_addr state : Nat) (m : Mem)
    (buf len key iv : Nat)
    (hbuf : load32 m state = buf)
    (htag : load32 m buf = kHookCommandAESEncrypt ∨ load32 m buf = kHookCommandAESDecrypt)
    (hlen : load32 m (buf + 4) = len)
    (hkey : load32 m (buf + 8) = key)
    (hiv : load32 m (buf + 12) = iv) :
    hook cfg ext ret_addr state m =
      if len > MAX_OUT_LEN then
        { status := some (-1), mem := m, trace := [], copied := 0 }
      else
        { status := some 0
          mem := (memcpy
            (if load32 m buf = kHookCommandAESDecrypt then
              ext.aes_decrypt (index buf 16) (index buf 16) len (toInt32 key) 0 0 m
             else ext.aes_encrypt (index buf 16) (index buf 16) len (toInt32 key) 0 0 m)
            buf (index (index buf 16) (if iv ≠ 0 then 0x10 else 0x0))
            (sub32 len (if iv ≠ 0 then 0x10 else 0x0))).mem
          trace :=
            [if load32 m buf = kHookCommandAESDecrypt then
              Event.aes_decrypt cfg.TARGET_AES_DECRYPT (index buf 16) (index buf 16) len
                (toInt32 key) 0 0
             else
              Event.aes_encrypt cfg.TARGET_AES_ENCRYPT (index buf 16) (index buf 16) len
                (toInt32 key) 0 0]
          copied := (memcpy
            (if load32 m buf = kHookCommandAESDecrypt then
              ext.aes_decrypt (index buf 16) (index buf 16) len (toInt32 key) 0 0 m
             else ext.aes_encrypt (index buf 16) (index buf 16) len (toInt32 key) 0 0 m)
            buf (index (index buf 16) (if iv ≠ 0 then 0x10 else 0x0))
            (sub32 len (if iv ≠ 0 then 0x10 else 0x0))).stores } := by
  subst hbuf
  have hl : cmd_arg m (load32 m state) 0 = len := by simpa [cmd_arg] using hlen
  have hk : cmd_arg m (load32 m state) 1 = key := by simpa [cmd_arg] using hkey
  have hi : cmd_arg m (load32 m state) 2 = iv := by simpa [cmd_arg] using hiv
  have h1 : load32 m (load32 m state) ≠ kHookCommandReset := by
    rcases htag with h | h <;> rw [h] <;> decide
  have h2 : load32 m (load32 m state) ≠ kHookCommandDump := by
    rcases htag with h | h <;> rw [h] <;> decide
  unfold hook
  simp only [h1, h2, htag, if_false, if_true, hl, hk, hi, bne_iff_ne, ne_eq, decide_not,
    Bool.not_eq_true', decide_eq_false_iff_not, ite_not]

/-- C4: an AES command with `iv_hack = 0` and `len <= 64` is handled (status 0).  The
cipher routine is called once, in place on the inline data at buffer offset 16, with
the given `len` and key class and null user key and IV: `aes_decrypt` when the tag is
`'aesd'`, `aes_encrypt` when it is `'aese'`.  Afterwards the first `len` bytes of the
buffer are the `len` bytes the routine left at offset 16. -/
theorem C4_aes_full_length (cfg : Config) (ext : Ext) (ret_addr state : Nat) (m : Mem)
    (buf len key : Nat)
    (hbuf : load32 m state = buf)
    (htag : load32 m buf = kHookCommandAESEncrypt ∨ load32 m buf = kHookCommandAESDecrypt)
    (hlen : load32 m (buf + 4) = len)
    (hkey : load32 m (buf + 8) = key)
    (hiv : load32 m (buf + 12) = 0)
    (hle : len ≤ MAX_OUT_LEN)
    (hnw : buf + 16 + len < 2 ^ 32) :
    (hook cfg ext ret_addr state m).status = some 0 ∧
    (hook cfg ext ret_addr state m).copied = len ∧
    (load32 m buf = kHookCommandAESDecrypt →
      (hook cfg ext ret_addr state m).trace =
        [Event.aes_decrypt cfg.TARGET_AES_DECRYPT (buf + 16) (buf + 16) len (toInt32 key) 0 0] ∧
      ∀ i, i < len → (hook cfg ext ret_addr state m).mem (buf + i) =
        (ext.aes_decrypt (buf + 16) (buf + 16) len (toInt32 key) 0 0 m) (buf + 16 + i)) ∧
    (load32 m buf = kHookCommandAESEncrypt →
      (hook cfg ext ret_addr state m).trace =
        [Event.aes_encrypt cfg.TARGET_AES_ENCRYPT (buf + 16) (buf + 16) len (toInt32 key) 0 0] ∧
      ∀ i, i < len → (hook cfg ext ret_addr state m).mem (buf + i) =
        (ext.aes_encrypt (buf + 16) (buf + 16) len (toInt32 key) 0 0 m) (buf + 16 + i)) := by
  have hm : len ≤ 64 := hle
  have hnot : ¬ len > MAX_OUT_LEN := by omega
  have e16 : index buf 16 = buf + 16 := by unfold index; omega
  have e0 : index (buf + 16) 0 = buf + 16 := by unfold index; omega
  have es : sub32 len 0 = len := by unfold sub32; omega
  rw [hook_aes cfg ext ret_addr state m buf len key 0 hbuf htag hlen hkey hiv, if_neg hnot]
  simp only [ne_eq, not_true_eq_false, if_false, e16, e0, es]
  refine ⟨trivial, memcpy_stores _ _ _ _, ?_, ?_⟩
  · intro hd
    simp only [hd, if_true, true_and]
    intro i hi
    have key := memcpy_value (ext.aes_decrypt (buf + 16) (buf + 16) len (toInt32 key) 0 0 m)
      buf (buf + 16) len (by omega) (fun _ => by omega) (fun h => by omega) i hi
    rw [Nat.mod_eq_of_lt (by omega), Nat.mod_eq_of_lt (by omega)] at key
    exact key
  · intro he
    have hne : kHookCommandAESEncrypt ≠ kHookCommandAESDecrypt := by decide
    simp only [he, hne, if_false, true_and]
    intro i hi
    have key := memcpy_value (ext.aes_encrypt (buf + 16) (buf + 16) len (toInt32 key) 0 0 m)
      buf (buf + 16) len (by omega) (fun _ => by omega) (fun h => by omega) i hi
    rw [Nat.mod_eq_of_lt (by omega), Nat.mod_eq_of_lt (by omega)] at key
    exact key

/-- Instance of C4 on an encryption of eight bytes. -/
theorem C4_aes_full_length_witness :
    (hook s5l8723 toyExt 0x2000 0x100 memAes).status = some 0 ∧
    (hook s5l8723 toyExt 0x2000 0x100 memAes).copied = 8 ∧
    (load32 memAes 0x1000 = kHookCommandAESDecrypt →
      (hook s5l8723 toyExt 0x2000 0x100 memAes).trace =
        [Event.aes_decrypt s5l8723.TARGET_AES_DECRYPT (0x1000 + 16) (0x1000 + 16) 8
          (toInt32 1) 0 0] ∧
      ∀ i, i < 8 → (hook s5l8723 toyExt 0x2000 0x100 memAes).mem (0x1000 + i) =
        (toyExt.aes_decrypt (0x1000 + 16) (0x1000 + 16) 8 (toInt32 1) 0 0 memAes)
          (0x1000 + 16 + i)) ∧
    (load32 memAes 0x1000 = kHookCommandAESEncrypt →
      (hook s5l8723 toyExt 0x2000 0x100 memAes).trace =
        [Event.aes_encrypt s5l8723.TARGET_AES_ENCRYPT (0x1000 + 16) (0x1000 + 16) 8
          (toInt32 1) 0 0] ∧
      ∀ i, i < 8 → (hook s5l8723 toyExt 0x2000 0x100 memAes).mem (0x1000 + i) =
        (toyExt.aes_encrypt (0x1000 + 16) (0x1000 + 16) 8 (toInt32 1) 0 0 memAes)
          (0x1000 + 16 + i)) :=
  C4_aes_full_length s5l8723 toyExt 0x2000 0x100 memAes 0x1000 8 1
    (by decide) (by decide) (by decide) (by decide) (by decide) (by decide) (by decide)

/-- C5 as stated fails: an AES request with `iv_hack` set and `len = 80` is rejected,
so no cipher routine runs and the number of bytes put at the buffer base is 0, not
`len - 16 = 64`. -/
theorem C5_counterexample :
    load32 memAesLong (load32 memAesLong 0x100) = kHookCommandAESEncrypt ∧
    load32 memAesLong (load32 memAesLong 0x100 + 4) = 80 ∧
    load32 memAesLong (load32 memAesLong 0x100 + 12) ≠ 0 ∧
    (hook s5l8723 toyExt 0x2000 0x100 memAesLong).status = some (-1) ∧
    (hook s5l8723 toyExt 0x2000 0x100 memAesLong).trace = [] ∧
    (hook s5l8723 toyExt 0x2000 0x100 memAesLong).copied ≠ 80 - 16 ∧
    ¬ (∀ i, i < 80 - 16 →
        (hook s5l8723 toyExt 0x2000 0x100 memAesLong).mem (0x1000 + i) =
          (toyExt.aes_encrypt (0x1000 + 16) (0x1000 + 16) 80 0 0 0 memAesLong)
            (0x1000 + 16 + 16 + i)) := by
  decide

/-- C5, amended: an AES command with `iv_hack` set (any non-zero word) and
`16 <= len <= 64` is handled (status 0); `len - 16` bytes are copied, and the first
`len - 16` bytes of the buffer are bytes `[16, len)` of what the cipher routine left
in place of the `len` inline bytes at offset 16. -/
theorem C5_aes_iv_hack_drops_block (cfg : Config) (ext : Ext) (ret_addr state : Nat) (m : Mem)
    (buf len key iv : Nat)
    (hbuf : load32 m state = buf)
    (htag : load32 m buf = kHookCommandAESEncrypt ∨ load32 m buf = kHookCommandAESDecrypt)
    (hlen : load32 m (buf + 4) = len)
    (hkey : load32 m (buf + 8) = key)
    (hiv : load32 m (buf + 12) = iv)
    (hhack : iv ≠ 0)
    (hge : 16 ≤ len)
    (hle : len ≤ MAX_OUT_LEN)
    (hnw : buf + 16 + len < 2 ^ 32) :
    (hook cfg ext ret_addr state m).status = some 0 ∧
    (hook cfg ext ret_addr state m).copied = len - 16 ∧
    (load32 m buf = kHookCommandAESDecrypt →
      ∀ i, i < len - 16 → (hook cfg ext ret_addr state m).mem (buf + i) =
        (ext.aes_decrypt (buf + 16) (buf + 16) len (toInt32 key) 0 0 m) (buf + 16 + 16 + i)) ∧
    (load32 m buf = kHookCommandAESEncrypt →
      ∀ i, i < len - 16 → (hook cfg ext ret_addr state m).mem (buf + i) =
        (ext.aes_encrypt (buf + 16) (buf + 16) len (toInt32 key) 0 0 m) (buf + 16 + 16 + i)) := by
  have hm : len ≤ 64 := hle
  have hnot : ¬ len > MAX_OUT_LEN := by omega
  have e16 : index buf 16 = buf + 16 := by unfold index; omega
  have e0 : index (buf + 16) 16 = buf + 16 + 16 := by unfold index; omega
  have es : sub32 len 16 = len - 16 := by unfold sub32; omega
  rw [hook_aes cfg ext ret_addr state m buf len key iv hbuf htag hlen hkey hiv, if_neg hnot]
  simp only [ne_eq, hhack, not_false_eq_true, if_true, e16, e0, es]
  refine ⟨trivial, memcpy_stores _ _ _ _, ?_, ?_⟩
  · intro hd
    simp only [hd, if_true]
    intro i hi
    have key := memcpy_value (ext.aes_decrypt (buf + 16) (buf + 16) len (toInt32 key) 0 0 m)
      buf (buf + 16 + 16) (len - 16) (by omega) (fun _ => by omega) (fun h => by omega) i hi
    rw [Nat.mod_eq_of_lt (by omega), Nat.mod_eq_of_lt (by omega)] at key
    exact key
  · intro he
    have hne : kHookCommandAESEncrypt ≠ kHookCommandAESDecrypt := by decide
    simp only [he, hne, if_false]
    intro i hi
    have key := memcpy_value (ext.aes_encrypt (buf + 16) (buf + 16) len (toInt32 key) 0 0 m)
      buf (buf + 16 + 16) (len - 16) (by omega) (fun _ => by omega) (fun h => by omega) i hi
    rw [Nat.mod_eq_of_lt (by omega), Nat.mod_eq_of_lt (by omega)] at key
    exact key

/-- Instance of the amended C5 on a decryption of 32 bytes. -/
theorem C5_aes_iv_hack_drops_block_witness :
    (hook s5l8723 toyExt 0x2000 0x100 memAesHack).status = some 0 ∧
    (hook s5l8723 toyExt 0x2000 0x100 memAesHack).copied = 32 - 16 ∧
    (load32 memAesHack 0x1000 = kHookCommandAESDecrypt →
      ∀ i, i < 32 - 16 → (hook s5l8723 toyExt 0x2000 0x100 memAesHack).mem (0x1000 + i) =
        (toyExt.aes_decrypt (0x1000 + 16) (0x1000 + 16) 32 (toInt32 2) 0 0 memAesHack)
          (0x1000 + 16 + 16 + i)) ∧
    (load32 memAesHack 0x1000 = kHookCommandAESEncrypt →
      ∀ i, i < 32 - 16 → (hook s5l8723 toyExt 0x2000 0x100 memAesHack).mem (0x1000 + i) =
        (toyExt.aes_encrypt (0x1000 + 16) (0x1000 + 16) 32 (toInt32 2) 0 0 memAesHack)
          (0x1000 + 16 + 16 + i)) :=
  C5_aes_iv_hack_drops_block s5l8723 toyExt 0x2000 0x100 memAesHack 0x1000 32 2 1
    (by decide) (by decide) (by decide) (by decide) (by decide) (by decide) (by decide)
    (by decide) (by decide)

/-- C6: an AES command of either direction and either `iv_hack` setting whose length
word exceeds 64 is not handled (status -1); no external routine is called, nothing
is copied and memory is left as it was. -/
theorem C6_aes_rejects_long (cfg : Config) (ext : Ext) (ret_addr state : Nat) (m : Mem)
    (buf len : Nat)
    (hbuf : load32 m state = buf)
    (htag : load32 m buf = kHookCommandAESEncrypt ∨ load32 m buf = kHookCommandAESDecrypt)
    (hlen : load32 m (buf + 4) = len)
    (hgt : MAX_OUT_LEN < len) :
    (hook cfg ext ret_addr state m).status = some (-1) ∧
    (hook cfg ext ret_addr state m).trace = [] ∧
    (hook cfg ext ret_addr state m).copied = 0 ∧
    (hook cfg ext ret_addr state m).mem = m := by
  rw [hook_aes cfg ext ret_addr state m buf len _ _ hbuf htag hlen rfl rfl, if_pos hgt]
  exact ⟨rfl, rfl, rfl, rfl⟩

/-- Instance of C6 with the declared length 80. -/
theorem C6_aes_rejects_long_witness :
    MAX_OUT_LEN < 80 ∧
    (hook s5l8723 toyExt 0x2000 0x100 memAesLong).status = some (-1) ∧
    (hook s5l8723 toyExt 0x2000 0x100 memAesLong).trace = [] ∧
    (hook s5l8723 toyExt 0x2000 0x100 memAesLong).copied = 0 ∧
    (hook s5l8723 toyExt 0x2000 0x100 memAesLong).mem = memAesLong :=
  ⟨by decide, C6_aes_rejects_long s5l8723 toyExt 0x2000 0x100 memAesLong 0x1000 80
    (by decide) (by decide) (by decide) (by decide)⟩

/-- The accepted AES case, field by field. -/
theorem hook_aes_ok (cfg : Config) (ext : Ext) (ret_addr state : Nat) (m : Mem)
    (buf len key iv : Nat)
    (hbuf : load32 m state = buf)
    (htag : load32 m buf = kHookCommandAESEncrypt ∨ load32 m buf = kHookCommandAESDecrypt)
    (hlen : load32 m (buf + 4) = len)
    (hkey : load32 m (buf + 8) = key)
    (hiv : load32 m (buf + 12) = iv)
    (hle : len ≤ MAX_OUT_LEN) :
    (hook cfg ext ret_addr state m).status = some 0 ∧
    (hook cfg ext ret_addr state m).copied = sub32 len (if iv ≠ 0 then 0x10 else 0x0) ∧
    (hook cfg ext ret_addr state m).mem =
      (memcpy
        (if load32 m buf = kHookCommandAESDecrypt then
          ext.aes_decrypt (index buf 16) (index buf 16) len (toInt32 key) 0 0 m
         else ext.aes_encrypt (index buf 16) (index buf 16) len (toInt32 key) 0 0 m)
        buf (index (index buf 16) (if iv ≠ 0 then 0x10 else 0x0))
        (sub32 len (if iv ≠ 0 then 0x10 else 0x0))).mem := by
  have hnot : ¬ len > MAX_OUT_LEN := by omega
  rw [hook_aes cfg ext ret_addr state m buf len key iv hbuf htag hlen hkey hiv, if_neg hnot]
  exact ⟨rfl, memcpy_stores _ _ _ _, rfl⟩

/-- C1 fails on an accepted request: for the AES command with `iv_hack` set and
`len = 0` the length check passes, hook returns 0, and the copy length `len - off`
wraps to `2 ^ 32 - 16`, so `memcpy` stores 4294967280 bytes from the buffer base on;
among them the byte at buffer offset 64, which receives the marker from offset 96. -/
theorem C1_aes_underflow_exceeds_max :
    load32 memAesShort (load32 memAesShort 0x100) = kHookCommandAESEncrypt ∧
    load32 memAesShort (load32 memAesShort 0x100 + 4) = 0 ∧
    load32 memAesShort (load32 memAesShort 0x100 + 12) = 1 ∧
    (hook s5l8723 toyExt 0x2000 0x100 memAesShort).status = some 0 ∧
    (hook s5l8723 toyExt 0x2000 0x100 memAesShort).copied = 4294967280 ∧
    MAX_OUT_LEN < (hook s5l8723 toyExt 0x2000 0x100 memAesShort).copied ∧
    memAesShort (0x1000 + 64) = 0 ∧
    (hook s5l8723 toyExt 0x2000 0x100 memAesShort).mem (0x1000 + 64) = 0xDD := by
  obtain ⟨hst, hcop, hmem⟩ := hook_aes_ok s5l8723 toyExt 0x2000 0x100 memAesShort 0x1000 0 0 1
    (by decide) (by decide) (by decide) (by decide) (by decide) (by decide)
  have hsrc : index (index 0x1000 16) (if (1 : Nat) ≠ 0 then 0x10 else 0x0) = 0x1020 := by decide
  have hcnt : sub32 0 (if (1 : Nat) ≠ 0 then 0x10 else 0x0) = 4294967280 := by decide
  rw [hcnt] at hcop
  rw [hsrc, hcnt] at hmem
  refine ⟨by decide, by decide, by decide, hst, hcop, ?_, by decide, ?_⟩
  · rw [hcop]; unfold MAX_OUT_LEN; omega
  · rw [hmem]
    have key := memcpy_value_fwd_at
      (if load32 memAesShort 0x1000 = kHookCommandAESDecrypt then
        toyExt.aes_decrypt (index 0x1000 16) (index 0x1000 16) 0 (toInt32 0) 0 0 memAesShort
       else
        toyExt.aes_encrypt (index 0x1000 16) (index 0x1000 16) 0 (toInt32 0) 0 0 memAesShort)
      0x1000 0x1020 4294967280 64 (by omega) (by omega) (by omega)
      (fun i hi => by omega)
    have e1 : (0x1000 + 64) % 2 ^ 32 = 0x1000 + 64 := by omega
    rw [e1] at key
    rw [key]
    decide

theorem store32_at (m : Mem) (a w i : Nat) (hi : i < 4) :
    (store32 m a w) ((a + i) % 2 ^ 32) = byteOf w i := by
  unfold store32
  have h4 : i = 0 ∨ i = 1 ∨ i = 2 ∨ i = 3 := by omega
  rcases h4 with h | h | h | h <;> subst h
  · rw [Mem.store_other _ _ _ _ (by omega), Mem.store_other _ _ _ _ (by omega),
      Mem.store_other _ _ _ _ (by omega)]
    exact Mem.store_same _ _ _
  · rw [Mem.store_other _ _ _ _ (by omega), Mem.store_other _ _ _ _ (by omega)]
    exact Mem.store_same _ _ _
  · rw [Mem.store_other _ _ _ _ (by omega)]
    exact Mem.store_same _ _ _
  · exact Mem.store_same _ _ _

theorem store32_other (m : Mem) (a w x : Nat) (h : ∀ i, i < 4 → x ≠ (a + i) % 2 ^ 32) :
    (store32 m a w) x = m x := by
  unfold store32
  have h0 := h 0 (by omega)
  have h1 := h 1 (by omega)
  have h2 := h 2 (by omega)
  have h3 := h 3 (by omega)
  rw [Nat.add_zero] at h0
  rw [Mem.store_other _ _ _ _ h3, Mem.store_other _ _ _ _ h2, Mem.store_other _ _ _ _ h1,
    Mem.store_other _ _ _ _ h0]

theorem word_of_byteOf (w : Nat) :
    (byteOf w 0).val + 256 * (byteOf w 1).val + 65536 * (byteOf w 2).val
      + 16777216 * (byteOf w 3).val = w % 2 ^ 32 := by
  simp only [byteOf]
  norm_num
  omega

/-- A load sees only the four bytes it reads. -/
theorem load32_congr (m1 m2 : Mem) (a : Nat)
    (h : ∀ i, i < 4 → m1 ((a + i) % 2 ^ 32) = m2 ((a + i) % 2 ^ 32)) :
    load32 m1 a = load32 m2 a := by
  unfold load32
  have h0 := h 0 (by omega)
  rw [Nat.add_zero] at h0
  rw [h0, h 1 (by omega), h 2 (by omega), h 3 (by omega)]

theorem hook_call (cfg : Config) (ext : Ext) (ret_addr state : Nat) (m : Mem)
    (buf func : Nat) (m1 : Mem) (v : Nat)
    (hbuf : load32 m state = buf)
    (htag : load32 m buf = kHookCommandCall)
    (hfunc : load32 m (buf + 4) = func)
    (hret : ext.tramp func
      [load32 m (buf + 8), load32 m (buf + 12), load32 m (buf + 16), load32 m (buf + 20),
       load32 m (buf + 24), load32 m (buf + 28), load32 m (buf + 32), load32 m (buf + 36)] m
        = some (m1, v)) :
    hook cfg ext ret_addr state m =
      { status := some 0
        mem := (memcpy (store32 m1 ret_addr (v % 2 ^ 32))
          (load32 (store32 m1 ret_addr (v % 2 ^ 32)) state) ret_addr 4).mem
        trace := [Event.tramp func
          [load32 m (buf + 8), load32 m (buf + 12), load32 m (buf + 16), load32 m (buf + 20),
           load32 m (buf + 24), load32 m (buf + 28), load32 m (buf + 32), load32 m (buf + 36)]]
        copied := (memcpy (store32 m1 ret_addr (v % 2 ^ 32))
          (load32 (store32 m1 ret_addr (v % 2 ^ 32)) state) ret_addr 4).stores } := by
  subst hbuf
  have h1 : kHookCommandCall ≠ kHookCommandReset := by decide
  have h2 : kHookCommandCall ≠ kHookCommandDump := by decide
  have h3 : kHookCommandCall ≠ kHookCommandAESEncrypt := by decide
  have h4 : kHookCommandCall ≠ kHookCommandAESDecrypt := by decide
  have hf : cmd_arg m (load32 m state) 0 = func := by simpa [cmd_arg] using hfunc
  have hargs : (List.range 8).map (fun i => cmd_arg m (load32 m state) (1 + i)) =
      [load32 m (load32 m state + 8), load32 m (load32 m state + 12),
       load32 m (load32 m state + 16), load32 m (load32 m state + 20),
       load32 m (load32 m state + 24), load32 m (load32 m state + 28),
       load32 m (load32 m state + 32), load32 m (load32 m state + 36)] := by
    simp [List.range, List.range.loop, cmd_arg, Nat.add_assoc]
  unfold hook
  simp only [htag, h1, h2, h3, h4, if_false, if_true, or_self, hf, hargs, hret]

theorem load32_of_bytes (m : Mem) (a w : Nat) (ha : a + 4 ≤ 2 ^ 32)
    (h : ∀ i, i < 4 → m (a + i) = byteOf w i) : load32 m a = w % 2 ^ 32 := by
  have b0 := h 0 (by omega)
  have b1 := h 1 (by omega)
  have b2 := h 2 (by omega)
  have b3 := h 3 (by omega)
  rw [Nat.add_zero] at b0
  unfold load32
  rw [Nat.mod_eq_of_lt (by omega : a < 2 ^ 32), Nat.mod_eq_of_lt (by omega : a + 1 < 2 ^ 32),
    Nat.mod_eq_of_lt (by omega : a + 2 < 2 ^ 32), Nat.mod_eq_of_lt (by omega : a + 3 < 2 ^ 32),
    b0, b1, b2, b3, word_of_byteOf]

/-- C7: a Call command whose target routine returns is handled (status 0).  The
routine at `func_addr` is called exactly once, with the eight words at buffer offsets
8 .. 40 in order.  Its 32-bit return value is then stored little-endian in the four
bytes at the base of the buffer the state designates when the routine has returned
(`m1` is the memory the routine left; this is the command buffer whenever the routine
left the state's first pointer alone), four bytes are copied, and apart from these
four bytes and hook's own local `ret` every byte is as the routine left it.
The local `ret` is an object of its own: it lies inside the address space and does
not share a byte with the state's first pointer. -/
theorem C7_call_returns_word (cfg : Config) (ext : Ext) (ret_addr state : Nat) (m : Mem)
    (buf func : Nat) (m1 : Mem) (v : Nat)
    (hbuf : load32 m state = buf)
    (htag : load32 m buf = kHookCommandCall)
    (hfunc : load32 m (buf + 4) = func)
    (hret : ext.tramp func
      [load32 m (buf + 8), load32 m (buf + 12), load32 m (buf + 16), load32 m (buf + 20),
       load32 m (buf + 24), load32 m (buf + 28), load32 m (buf + 32), load32 m (buf + 36)] m
        = some (m1, v))
    (hlocal : ret_addr + 4 ≤ 2 ^ 32)
    (halias : ∀ i, i < 4 → ∀ j, j < 4 → ret_addr + i ≠ (state + j) % 2 ^ 32)
    (hnw : load32 m1 state + 4 ≤ 2 ^ 32) :
    (hook cfg ext ret_addr state m).status = some 0 ∧
    (hook cfg ext ret_addr state m).trace = [Event.tramp func
      [load32 m (buf + 8), load32 m (buf + 12), load32 m (buf + 16), load32 m (buf + 20),
       load32 m (buf + 24), load32 m (buf + 28), load32 m (buf + 32), load32 m (buf + 36)]] ∧
    (hook cfg ext ret_addr state m).copied = 4 ∧
    (∀ i, i < 4 →
      (hook cfg ext ret_addr state m).mem (load32 m1 state + i) = byteOf (v % 2 ^ 32) i) ∧
    load32 (hook cfg ext ret_addr state m).mem (load32 m1 state) = v % 2 ^ 32 ∧
    (∀ a, (a < load32 m1 state ∨ load32 m1 state + 4 ≤ a) →
      (a < ret_addr ∨ ret_addr + 4 ≤ a) → (hook cfg ext ret_addr state m).mem a = m1 a) := by
  have hdst : load32 (store32 m1 ret_addr (v % 2 ^ 32)) state = load32 m1 state := by
    apply load32_congr
    intro j hj
    apply store32_other
    intro i hi
    rw [Nat.mod_eq_of_lt (by omega : ret_addr + i < 2 ^ 32)]
    exact fun h => halias i hi j hj h.symm
  have hbytes : ∀ i, i < 4 →
      (memcpy (store32 m1 ret_addr (v % 2 ^ 32)) (load32 m1 state) ret_addr 4).mem
        (load32 m1 state + i) = byteOf (v % 2 ^ 32) i := by
    intro i hi
    have key := memcpy_value (store32 m1 ret_addr (v % 2 ^ 32)) (load32 m1 state) ret_addr 4
      (by omega) (fun _ => hlocal) (fun _ => hnw) i hi
    rw [store32_at m1 ret_addr (v % 2 ^ 32) i hi,
      Nat.mod_eq_of_lt (by omega : load32 m1 state + i < 2 ^ 32)] at key
    exact key
  rw [hook_call cfg ext ret_addr state m buf func m1 v hbuf htag hfunc hret, hdst]
  refine ⟨rfl, rfl, memcpy_stores _ _ _ _, hbytes, ?_, ?_⟩
  · exact (load32_of_bytes _ _ _ hnw hbytes).trans (Nat.mod_mod _ _)
  · intro a hd hr
    show (memcpy (store32 m1 ret_addr (v % 2 ^ 32)) (load32 m1 state) ret_addr 4).mem a = m1 a
    rw [memcpy_frame]
    · apply store32_other
      intro i hi
      rw [Nat.mod_eq_of_lt (by omega : ret_addr + i < 2 ^ 32)]
      omega
    · intro i hi
      rw [Nat.mod_eq_of_lt (by omega : load32 m1 state + i < 2 ^ 32)]
      omega

/-- Instance of C7: the code at `0x5000` is called with 1 .. 8 and returns
`0x5000 + 36`. -/
theorem C7_call_returns_word_witness :
    (hook s5l8723 toyExt 0x2000 0x100 memCall).status = some 0 ∧
    (hook s5l8723 toyExt 0x2000 0x100 memCall).trace = [Event.tramp 0x5000
      [load32 memCall (0x1000 + 8), load32 memCall (0x1000 + 12),
       load32 memCall (0x1000 + 16), load32 memCall (0x1000 + 20),
       load32 memCall (0x1000 + 24), load32 memCall (0x1000 + 28),
       load32 memCall (0x1000 + 32), load32 memCall (0x1000 + 36)]] ∧
    (hook s5l8723 toyExt 0x2000 0x100 memCall).copied = 4 ∧
    (∀ i, i < 4 →
      (hook s5l8723 toyExt 0x2000 0x100 memCall).mem (load32 memCall 0x100 + i)
        = byteOf (0x5024 % 2 ^ 32) i) ∧
    load32 (hook s5l8723 toyExt 0x2000 0x100 memCall).mem (load32 memCall 0x100)
      = 0x5024 % 2 ^ 32 ∧
    (∀ a, (a < load32 memCall 0x100 ∨ load32 memCall 0x100 + 4 ≤ a) →
      (a < 0x2000 ∨ 0x2000 + 4 ≤ a) →
      (hook s5l8723 toyExt 0x2000 0x100 memCall).mem a = memCall a) :=
  C7_call_returns_word s5l8723 toyExt 0x2000 0x100 memCall 0x1000 0x5000 memCall 0x5024
    (by decide) (by decide) (by decide) (by rfl) (by decide) (by decide) (by decide)

theorem hook_default (cfg : Config) (ext : Ext) (ret_addr state : Nat) (m : Mem)
    (h1 : load32 m (load32 m state) ≠ kHookCommandReset)
    (h2 : load32 m (load32 m state) ≠ kHookCommandDump)
    (h3 : load32 m (load32 m state) ≠ kHookCommandAESEncrypt)
    (h4 : load32 m (load32 m state) ≠ kHookCommandAESDecrypt)
    (h5 : load32 m (load32 m state) ≠ kHookCommandCall) :
    hook cfg ext ret_addr state m =
      if staging_check cfg m then
        { status := none, mem := ext.state_set 1 0 (ext.usb_shutdown m),
          trace := [Event.usb_shutdown cfg.TARGET_USB_SHUTDOWN,
                    Event.state_set cfg.TARGET_STATE_SET 1 0,
                    Event.prepare_and_jump cfg.TARGET_JUMP cfg.SRAM_BASE],
          copied := 0 }
      else
        { status := some (-1), mem := m, trace := [], copied := 0 } := by
  unfold hook
  simp only [h1, h2, h3, h4, h5, if_false, or_self]

/-- C8: with a tag that is none of the five commands and a staging region that passes
the check, hook calls `usb_shutdown()`, then `state_set(1, 0)`, then
`prepare_and_jump(SRAM_BASE)`, each once and in this order, and does not return;
it copies nothing, so memory is exactly what the two returning routines left.
`SRAM_BASE` is `0x22000000` in both configurations. -/
theorem C8_fallback_boots_image (cfg : Config) (ext : Ext) (ret_addr state : Nat) (m : Mem)
    (h1 : load32 m (load32 m state) ≠ kHookCommandReset)
    (h2 : load32 m (load32 m state) ≠ kHookCommandDump)
    (h3 : load32 m (load32 m state) ≠ kHookCommandAESEncrypt)
    (h4 : load32 m (load32 m state) ≠ kHookCommandAESDecrypt)
    (h5 : load32 m (load32 m state) ≠ kHookCommandCall)
    (hvalid : staging_check cfg m = true) :
    (hook cfg ext ret_addr state m).status = none ∧
    (hook cfg ext ret_addr state m).trace =
      [Event.usb_shutdown cfg.TARGET_USB_SHUTDOWN,
       Event.state_set cfg.TARGET_STATE_SET 1 0,
       Event.prepare_and_jump cfg.TARGET_JUMP cfg.SRAM_BASE] ∧
    (hook cfg ext ret_addr state m).copied = 0 ∧
    (hook cfg ext ret_addr state m).mem = ext.state_set 1 0 (ext.usb_shutdown m) ∧
    s5l8723.SRAM_BASE = 0x22000000 ∧ s5l8443.SRAM_BASE = 0x22000000 := by
  rw [hook_default cfg ext ret_addr state m h1 h2 h3 h4 h5, if_pos hvalid]
  exact ⟨rfl, rfl, rfl, rfl, rfl, rfl⟩

/-- Instance of C8 on the EFI target with `_FVH` staged. -/
theorem C8_fallback_boots_image_witness :
    staging_check s5l8723 memBoot = true ∧
    (hook s5l8723 toyExt 0x2000 0x100 memBoot).status = none ∧
    (hook s5l8723 toyExt 0x2000 0x100 memBoot).trace =
      [Event.usb_shutdown s5l8723.TARGET_USB_SHUTDOWN,
       Event.state_set s5l8723.TARGET_STATE_SET 1 0,
       Event.prepare_and_jump s5l8723.TARGET_JUMP s5l8723.SRAM_BASE] ∧
    (hook s5l8723 toyExt 0x2000 0x100 memBoot).copied = 0 ∧
    (hook s5l8723 toyExt 0x2000 0x100 memBoot).mem
      = toyExt.state_set 1 0 (toyExt.usb_shutdown memBoot) ∧
    s5l8723.SRAM_BASE = 0x22000000 ∧ s5l8443.SRAM_BASE = 0x22000000 :=
  ⟨by decide, C8_fallback_boots_image s5l8723 toyExt 0x2000 0x100 memBoot
    (by decide) (by decide) (by decide) (by decide) (by decide) (by decide)⟩

/-- C9: with a tag that is none of the five commands and a staging region that fails
the check, hook returns -1, calls no external routine, copies nothing and leaves
memory as it was. -/
theorem C9_fallback_rejects_invalid (cfg : Config) (ext : Ext) (ret_addr state : Nat) (m : Mem)
    (h1 : load32 m (load32 m state) ≠ kHookCommandReset)
    (h2 : load32 m (load32 m state) ≠ kHookCommandDump)
    (h3 : load32 m (load32 m state) ≠ kHookCommandAESEncrypt)
    (h4 : load32 m (load32 m state) ≠ kHookCommandAESDecrypt)
    (h5 : load32 m (load32 m state) ≠ kHookCommandCall)
    (hinvalid : staging_check cfg m = false) :
    (hook cfg ext ret_addr state m).status = some (-1) ∧
    (hook cfg ext ret_addr state m).trace = [] ∧
    (hook cfg ext ret_addr state m).copied = 0 ∧
    (hook cfg ext ret_addr state m).mem = m := by
  rw [hook_default cfg ext ret_addr state m h1 h2 h3 h4 h5, hinvalid]
  exact ⟨rfl, rfl, rfl, rfl⟩

/-- Instance of C9 on the non-EFI target with nothing staged. -/
theorem C9_fallback_rejects_invalid_witness :
    staging_check s5l8443 memIdle = false ∧
    (hook s5l8443 toyExt 0x2000 0x100 memIdle).status = some (-1) ∧
    (hook s5l8443 toyExt 0x2000 0x100 memIdle).trace = [] ∧
    (hook s5l8443 toyExt 0x2000 0x100 memIdle).copied = 0 ∧
    (hook s5l8443 toyExt 0x2000 0x100 memIdle).mem = memIdle :=
  ⟨by decide, C9_fallback_rejects_invalid s5l8443 toyExt 0x2000 0x100 memIdle
    (by decide) (by decide) (by decide) (by decide) (by decide) (by decide)⟩

theorem word_bytes_inj (a0 a1 a2 a3 b0 b1 b2 b3 : Byte) :
    wordOfBytes a0 a1 a2 a3 = wordOfBytes b0 b1 b2 b3 ↔ a0 = b0 ∧ a1 = b1 ∧ a2 = b2 ∧ a3 = b3 := by
  unfold wordOfBytes
  constructor
  · intro h
    have h0 := a0.isLt
    have h1 := a1.isLt
    have h2 := a2.isLt
    have h3 := a3.isLt
    have k0 := b0.isLt
    have k1 := b1.isLt
    have k2 := b2.isLt
    have k3 := b3.isLt
    refine ⟨Fin.ext ?_, Fin.ext ?_, Fin.ext ?_, Fin.ext ?_⟩ <;> omega
  · rintro ⟨rfl, rfl, rfl, rfl⟩
    rfl

/-- C10: the staging check is exact and target-specific.  On the EFI target
(`s5l8723`) it passes if and only if the bytes at `SRAM_BASE + 0x28 .. SRAM_BASE + 0x2B`
are `_`, `F`, `V`, `H` in memory order; on the non-EFI target (`s5l8443`) it passes if
and only if the little-endian word at `SRAM_BASE` is `0xEA00000B`, that is the bytes
`0B 00 00 EA`.  Two memories that agree on those four bytes get the same verdict. -/
theorem C10_staging_check_exact (m : Mem) :
    (s5l8723.EFI = true ∧ s5l8443.EFI = false) ∧
    (staging_check s5l8723 m = true ↔
      (m (0x22000000 + 0x28)).val = '_'.toNat ∧ (m (0x22000000 + 0x29)).val = 'F'.toNat ∧
      (m (0x22000000 + 0x2A)).val = 'V'.toNat ∧ (m (0x22000000 + 0x2B)).val = 'H'.toNat) ∧
    (staging_check s5l8443 m = true ↔ load32 m 0x22000000 = 0xEA00000B) ∧
    (staging_check s5l8443 m = true ↔
      (m 0x22000000).val = 0x0B ∧ (m 0x22000001).val = 0x00 ∧
      (m 0x22000002).val = 0x00 ∧ (m 0x22000003).val = 0xEA) ∧
    (∀ m2 : Mem, (∀ i, i < 4 → m2 (0x22000028 + i) = m (0x22000028 + i)) →
      staging_check s5l8723 m2 = staging_check s5l8723 m) ∧
    (∀ m2 : Mem, (∀ i, i < 4 → m2 (0x22000000 + i) = m (0x22000000 + i)) →
      staging_check s5l8443 m2 = staging_check s5l8443 m) := by
  have e1 : ∀ x : Mem, staging_check s5l8723 x =
      (wordOfBytes (x 0x22000028) (x 0x22000029) (x 0x2200002A) (x 0x2200002B)
        == wordOfBytes ⟨0x5F, by decide⟩ ⟨0x46, by decide⟩ ⟨0x56, by decide⟩ ⟨0x48, by decide⟩) :=
    fun _ => rfl
  have e2 : ∀ x : Mem, staging_check s5l8443 x =
      (wordOfBytes (x 0x22000000) (x 0x22000001) (x 0x22000002) (x 0x22000003)
        == wordOfBytes ⟨0x0B, by decide⟩ ⟨0x00, by decide⟩ ⟨0x00, by decide⟩ ⟨0xEA, by decide⟩) :=
    fun _ => rfl
  have e3 : ∀ x : Mem, load32 x 0x22000000 =
      wordOfBytes (x 0x22000000) (x 0x22000001) (x 0x22000002) (x 0x22000003) := fun _ => rfl
  refine ⟨⟨rfl, rfl⟩, ?_, ?_, ?_, ?_, ?_⟩
  · rw [e1, beq_iff_eq, word_bytes_inj]
    simp only [Fin.ext_iff]
    exact Iff.rfl
  · rw [e2, e3, beq_iff_eq]
    exact Iff.rfl
  · rw [e2, beq_iff_eq, word_bytes_inj]
    simp only [Fin.ext_iff]
  · intro m2 h
    have a0 := h 0 (by omega)
    have a1 := h 1 (by omega)
    have a2 := h 2 (by omega)
    have a3 := h 3 (by omega)
    rw [e1, e1]
    simp only [Nat.reduceAdd] at a0 a1 a2 a3
    rw [a0, a1, a2, a3]
  · intro m2 h
    have a0 := h 0 (by omega)
    have a1 := h 1 (by omega)
    have a2 := h 2 (by omega)
    have a3 := h 3 (by omega)
    rw [e2, e2]
    simp only [Nat.reduceAdd] at a0 a1 a2 a3
    rw [a0, a1, a2, a3]

theorem hook_reset (cfg : Config) (ext : Ext) (ret_addr state : Nat) (m : Mem)
    (htag : load32 m (load32 m state) = kHookCommandReset) :
    hook cfg ext ret_addr state m =
      { status := none, mem := ext.usb_shutdown m,
        trace := [Event.usb_shutdown cfg.TARGET_USB_SHUTDOWN, Event.reboot cfg.TARGET_REBOOT],
        copied := 0 } := by
  unfold hook
  simp only [htag, if_true]

/-- C11: with the tag `'rest'`, whatever follows the tag and whatever the staging
region holds, hook calls `usb_shutdown()` and then `reboot()`, each once and in this
order, and nothing else; it copies nothing (memory is what `usb_shutdown` left) and
does not return. -/
theorem C11_reset_shuts_down_and_reboots (cfg : Config) (ext : Ext) (ret_addr state : Nat)
    (m : Mem)
    (htag : load32 m (load32 m state) = kHookCommandReset) :
    (hook cfg ext ret_addr state m).status = none ∧
    (hook cfg ext ret_addr state m).trace =
      [Event.usb_shutdown cfg.TARGET_USB_SHUTDOWN, Event.reboot cfg.TARGET_REBOOT] ∧
    (hook cfg ext ret_addr state m).copied = 0 ∧
    (hook cfg ext ret_addr state m).mem = ext.usb_shutdown m := by
  rw [hook_reset cfg ext ret_addr state m htag]
  exact ⟨rfl, rfl, rfl, rfl⟩

/-- Instance of C11 with arbitrary words after the tag and a valid image staged. -/
theorem C11_reset_shuts_down_and_reboots_witness :
    staging_check s5l8723 memReset = true ∧
    (hook s5l8723 toyExt 0x2000 0x100 memReset).status = none ∧
    (hook s5l8723 toyExt 0x2000 0x100 memReset).trace =
      [Event.usb_shutdown s5l8723.TARGET_USB_SHUTDOWN, Event.reboot s5l8723.TARGET_REBOOT] ∧
    (hook s5l8723 toyExt 0x2000 0x100 memReset).copied = 0 ∧
    (hook s5l8723 toyExt 0x2000 0x100 memReset).mem = toyExt.usb_shutdown memReset :=
  ⟨by decide, C11_reset_shuts_down_and_reboots s5l8723 toyExt 0x2000 0x100 memReset
    (by decide)⟩

/-- The status of a run, case by case.  `tag` is the command tag, `dlen` the length
word of a Dump command (offset 8) and `alen` that of an AES command (offset 4). -/
theorem hook_status (cfg : Config) (ext : Ext) (ret_addr state : Nat) (m : Mem) :
    (load32 m (load32 m state) = kHookCommandReset →
      (hook cfg ext ret_addr state m).status = none) ∧
    (load32 m (load32 m state) = kHookCommandDump →
      (hook cfg ext ret_addr state m).status =
        if load32 m (load32 m state + 8) > MAX_OUT_LEN then some (-1) else some 0) ∧
    ((load32 m (load32 m state) = kHookCommandAESEncrypt ∨
        load32 m (load32 m state) = kHookCommandAESDecrypt) →
      (hook cfg ext ret_addr state m).status =
        if load32 m (load32 m state + 4) > MAX_OUT_LEN then some (-1) else some 0) ∧
    (load32 m (load32 m state) = kHookCommandCall →
      (hook cfg ext ret_addr state m).status = none ∨
      (hook cfg ext ret_addr state m).status = some 0) ∧
    (load32 m (load32 m state) ≠ kHookCommandReset →
      load32 m (load32 m state) ≠ kHookCommandDump →
      load32 m (load32 m state) ≠ kHookCommandAESEncrypt →
      load32 m (load32 m state) ≠ kHookCommandAESDecrypt →
      load32 m (load32 m state) ≠ kHookCommandCall →
      (hook cfg ext ret_addr state m).status =
        if staging_check cfg m then none else some (-1)) := by
  refine ⟨?_, ?_, ?_, ?_, ?_⟩
  · intro h
    rw [hook_reset cfg ext ret_addr state m h]
  · intro h
    have hl : cmd_arg m (load32 m state) 1 = load32 m (load32 m state + 8) := by
      simp [cmd_arg]
    rw [hook_dump cfg ext ret_addr state m h, hl]
    split <;> rfl
  · intro h
    rw [hook_aes cfg ext ret_addr state m _ _ _ _ rfl h rfl rfl rfl]
    split <;> rfl
  · intro h
    have h1 : kHookCommandCall ≠ kHookCommandReset := by decide
    have h2 : kHookCommandCall ≠ kHookCommandDump := by decide
    have h3 : kHookCommandCall ≠ kHookCommandAESEncrypt := by decide
    have h4 : kHookCommandCall ≠ kHookCommandAESDecrypt := by decide
    unfold hook
    simp only [h, h1, h2, h3, h4, if_false, if_true, or_self]
    split
    · exact Or.inl rfl
    · exact Or.inr rfl
  · intro h1 h2 h3 h4 h5
    rw [hook_default cfg ext ret_addr state m h1 h2 h3 h4 h5]
    split <;> rfl

/-- C12: whenever hook returns, the status is -1 or 0, and it is -1 if and only if the
tag is `'dump'` and its length word (offset 8) exceeds 64, or the tag is `'aese'` or
`'aesd'` and its length word (offset 4) exceeds 64, or the tag is none of the five
commands and the staging check fails.  For Dump and for AES the length 64 is accepted
(status 0) and the length 65 is rejected (status -1). -/
theorem C12_status_classification (cfg : Config) (ext : Ext) (ret_addr state : Nat) (m : Mem) :
    (∀ v, (hook cfg ext ret_addr state m).status = some v → v = -1 ∨ v = 0) ∧
    ((hook cfg ext ret_addr state m).status = some (-1) ↔
      (load32 m (load32 m state) = kHookCommandDump ∧
        MAX_OUT_LEN < load32 m (load32 m state + 8)) ∨
      ((load32 m (load32 m state) = kHookCommandAESEncrypt ∨
          load32 m (load32 m state) = kHookCommandAESDecrypt) ∧
        MAX_OUT_LEN < load32 m (load32 m state + 4)) ∨
      (load32 m (load32 m state) ≠ kHookCommandReset ∧
        load32 m (load32 m state) ≠ kHookCommandDump ∧
        load32 m (load32 m state) ≠ kHookCommandAESEncrypt ∧
        load32 m (load32 m state) ≠ kHookCommandAESDecrypt ∧
        load32 m (load32 m state) ≠ kHookCommandCall ∧
        staging_check cfg m = false)) ∧
    (load32 m (load32 m state) = kHookCommandDump →
      (load32 m (load32 m state + 8) = 64 → (hook cfg ext ret_addr state m).status = some 0) ∧
      (load32 m (load32 m state + 8) = 65 →
        (hook cfg ext ret_addr state m).status = some (-1))) ∧
    ((load32 m (load32 m state) = kHookCommandAESEncrypt ∨
        load32 m (load32 m state) = kHookCommandAESDecrypt) →
      (load32 m (load32 m state + 4) = 64 → (hook cfg ext ret_addr state m).status = some 0) ∧
      (load32 m (load32 m state + 4) = 65 →
        (hook cfg ext ret_addr state m).status = some (-1))) := by
  obtain ⟨hR, hD, hA, hC, hF⟩ := hook_status cfg ext ret_addr state m
  have d1 : kHookCommandDump ≠ kHookCommandReset := by decide
  have d2 : kHookCommandAESEncrypt ≠ kHookCommandReset := by decide
  have d3 : kHookCommandAESDecrypt ≠ kHookCommandReset := by decide
  have d4 : kHookCommandCall ≠ kHookCommandReset := by decide
  have d5 : kHookCommandAESEncrypt ≠ kHookCommandDump := by decide
  have d6 : kHookCommandAESDecrypt ≠ kHookCommandDump := by decide
  have d7 : kHookCommandCall ≠ kHookCommandDump := by decide
  have d8 : kHookCommandCall ≠ kHookCommandAESEncrypt := by decide
  have d9 : kHookCommandCall ≠ kHookCommandAESDecrypt := by decide
  have hmax : MAX_OUT_LEN = 64 := rfl
  rw [hmax] at hD hA ⊢
  generalize (hook cfg ext ret_addr state m).status = st at *
  generalize load32 m (load32 m state + 8) = dlen at *
  generalize load32 m (load32 m state + 4) = alen at *
  generalize load32 m (load32 m state) = tag at *
  generalize staging_check cfg m = chk at *
  have d10 : kHookCommandAESEncrypt ≠ kHookCommandAESDecrypt := by decide
  by_cases t1 : tag = kHookCommandReset
  · have e := hR t1
    subst e
    subst t1
    simp [d1.symm, d2.symm, d3.symm]
  by_cases t2 : tag = kHookCommandDump
  · have e := hD t2
    subst t2
    by_cases hl : dlen > 64
    · rw [if_pos hl] at e
      subst e
      have h64 : dlen ≠ 64 := by omega
      simp [d5.symm, d6.symm, hl, h64]
    · rw [if_neg hl] at e
      subst e
      have h65 : dlen ≠ 65 := by omega
      have hl2 : ¬ 64 < dlen := hl
      simp [d5.symm, d6.symm, hl2, h65]
  by_cases t3 : tag = kHookCommandAESEncrypt ∨ tag = kHookCommandAESDecrypt
  · have e := hA t3
    by_cases hl : alen > 64
    · rw [if_pos hl] at e
      subst e
      have h64 : alen ≠ 64 := by omega
      rcases t3 with t3 | t3 <;> subst t3 <;> simp [d5, d6, d10, hl, h64]
    · rw [if_neg hl] at e
      subst e
      have h65 : alen ≠ 65 := by omega
      have hl2 : ¬ 64 < alen := hl
      rcases t3 with t3 | t3 <;> subst t3 <;> simp [d5, d6, d10, hl2, h65]
  have t3a : tag ≠ kHookCommandAESEncrypt := fun h => t3 (Or.inl h)
  have t3b : tag ≠ kHookCommandAESDecrypt := fun h => t3 (Or.inr h)
  by_cases t4 : tag = kHookCommandCall
  · have e := hC t4
    subst t4
    rcases e with e | e <;> subst e <;> simp [d4, d7, d8, d9]
  · have e := hF t1 t2 t3a t3b t4
    cases chk <;> simp at e <;> subst e <;> simp [t1, t2, t3a, t3b, t4]

/-- An accepted AES command with `iv_hack` clear: the status is 0 and the first `len`
bytes of the buffer are the bytes the selected routine left at offset 16. -/
theorem hook_aes_plain (cfg : Config) (ext : Ext) (ret_addr state : Nat) (m : Mem)
    (buf len key : Nat)
    (hbuf : load32 m state = buf)
    (htag : load32 m buf = kHookCommandAESEncrypt ∨ load32 m buf = kHookCommandAESDecrypt)
    (hlen : load32 m (buf + 4) = len)
    (hkey : load32 m (buf + 8) = key)
    (hiv : load32 m (buf + 12) = 0)
    (hle : len ≤ MAX_OUT_LEN)
    (hnw : buf + 16 + len < 2 ^ 32) :
    (hook cfg ext ret_addr state m).status = some 0 ∧
    ∀ i, i < len → (hook cfg ext ret_addr state m).mem (buf + i) =
      (if load32 m buf = kHookCommandAESDecrypt then
        ext.aes_decrypt (buf + 16) (buf + 16) len (toInt32 key) 0 0 m
       else ext.aes_encrypt (buf + 16) (buf + 16) len (toInt32 key) 0 0 m) (buf + 16 + i) := by
  have hm : len ≤ 64 := hle
  have e16 : index buf 16 = buf + 16 := by unfold index; omega
  have e0 : index (buf + 16) 0 = buf + 16 := by unfold index; omega
  have es : sub32 len 0 = len := by unfold sub32; omega
  obtain ⟨hst, _, hmem⟩ :=
    hook_aes_ok cfg ext ret_addr state m buf len key 0 hbuf htag hlen hkey hiv hle
  simp only [ne_eq, not_true_eq_false, if_false, e16, e0, es] at hmem
  refine ⟨hst, ?_⟩
  intro i hi
  rw [hmem]
  have key := memcpy_value
    (if load32 m buf = kHookCommandAESDecrypt then
      ext.aes_decrypt (buf + 16) (buf + 16) len (toInt32 key) 0 0 m
     else ext.aes_encrypt (buf + 16) (buf + 16) len (toInt32 key) 0 0 m)
    buf (buf + 16) len (by omega) (fun _ => by omega) (fun h => by omega) i hi
  rw [Nat.mod_eq_of_lt (by omega : buf + i < 2 ^ 32),
    Nat.mod_eq_of_lt (by omega : buf + 16 + i < 2 ^ 32)] at key
  exact key

/-- C13: round trip.  Assume the routines invert each other on data: whenever the
`l` bytes handed to `aes_decrypt` are the `l` bytes `aes_encrypt` produced under the
same key class, `aes_decrypt` produces the bytes `aes_encrypt` was given.  Then for
`len <= 64`, running hook on `('aese', len, key, 0, p)` and afterwards on
`('aesd', len, key, 0, r)`, where `r` is the `len` bytes the first run left at the
buffer base, both runs return 0 and the second leaves `p` in the first `len` bytes of
its buffer. -/
theorem C13_encrypt_then_decrypt (cfg : Config) (ext : Ext) (ret_addr : Nat)
    (state : Nat) (m : Mem) (state2 : Nat) (m2 : Mem) (buf buf2 len key : Nat)
    (hrt : ∀ (a b l : Nat) (k : Int) (x y : Mem),
      (∀ i, i < l → y (b + i) = (ext.aes_encrypt a a l k 0 0 x) (a + i)) →
      ∀ i, i < l → (ext.aes_decrypt b b l k 0 0 y) (b + i) = x (a + i))
    (hbuf : load32 m state = buf)
    (htag : load32 m buf = kHookCommandAESEncrypt)
    (hlen : load32 m (buf + 4) = len)
    (hkey : load32 m (buf + 8) = key)
    (hiv : load32 m (buf + 12) = 0)
    (hle : len ≤ MAX_OUT_LEN)
    (hnw : buf + 16 + len < 2 ^ 32)
    (hbuf2 : load32 m2 state2 = buf2)
    (htag2 : load32 m2 buf2 = kHookCommandAESDecrypt)
    (hlen2 : load32 m2 (buf2 + 4) = len)
    (hkey2 : load32 m2 (buf2 + 8) = key)
    (hiv2 : load32 m2 (buf2 + 12) = 0)
    (hnw2 : buf2 + 16 + len < 2 ^ 32)
    (hdata : ∀ i, i < len →
      m2 (buf2 + 16 + i) = (hook cfg ext ret_addr state m).mem (buf + i)) :
    (hook cfg ext ret_addr state m).status = some 0 ∧
    (hook cfg ext ret_addr state2 m2).status = some 0 ∧
    ∀ i, i < len → (hook cfg ext ret_addr state2 m2).mem (buf2 + i) = m (buf + 16 + i) := by
  have hne : kHookCommandAESEncrypt ≠ kHookCommandAESDecrypt := by decide
  obtain ⟨hs1, hv1⟩ := hook_aes_plain cfg ext ret_addr state m buf len key hbuf
    (Or.inl htag) hlen hkey hiv hle hnw
  obtain ⟨hs2, hv2⟩ := hook_aes_plain cfg ext ret_addr state2 m2 buf2 len key hbuf2
    (Or.inr htag2) hlen2 hkey2 hiv2 hle hnw2
  rw [htag] at hv1
  rw [htag2] at hv2
  simp only [hne, if_false] at hv1
  simp only [if_true] at hv2
  refine ⟨hs1, hs2, ?_⟩
  intro i hi
  rw [hv2 i hi]
  exact hrt (buf + 16) (buf2 + 16) len (toInt32 key) m m2
    (fun j hj => by rw [hdata j hj, hv1 j hj]) i hi

/-- Instance of C13 with the toy cipher on eight bytes. -/
theorem C13_encrypt_then_decrypt_witness :
    (hook s5l8723 toyExt 0x2000 0x100 memAes).status = some 0 ∧
    (hook s5l8723 toyExt 0x2000 0x100 memAesBack).status = some 0 ∧
    ∀ i, i < 8 →
      (hook s5l8723 toyExt 0x2000 0x100 memAesBack).mem (0x1000 + i) = memAes (0x1000 + 16 + i) :=
  C13_encrypt_then_decrypt s5l8723 toyExt 0x2000 0x100 memAes 0x100 memAesBack 0x1000 0x1000 8 1
    (by
      intro a b l k x y h i hi
      have hy := h i hi
      simp only [toyExt] at hy ⊢
      have ha : a ≤ a + i ∧ a + i < a + l := ⟨by omega, by omega⟩
      have hb : b ≤ b + i ∧ b + i < b + l := ⟨by omega, by omega⟩
      rw [if_pos ha, Nat.add_sub_cancel_left] at hy
      rw [if_pos hb, Nat.add_sub_cancel_left, hy]
      exact add_sub_cancel_right _ _)
    (by decide) (by decide) (by decide) (by decide) (by decide) (by decide) (by decide)
    (by decide) (by decide) (by decide) (by decide) (by decide) (by decide) (by decide)

/-- C14: dispatch is total and unambiguous.  The five tag constants are pairwise
distinct 32-bit values; every tag value selects one of the six blocks (`dispatch` is
a function), each constant its own block and every other value the fallback, and
only those; hook does what the selected block does; and the selection is the same
for two memories that agree on the first four bytes of the buffer. -/
theorem C14_dispatch_total (cfg : Config) (ext : Ext) (ret_addr state : Nat) (m : Mem) :
    [kHookCommandReset, kHookCommandDump, kHookCommandAESEncrypt, kHookCommandAESDecrypt,
      kHookCommandCall].Nodup ∧
    (∀ k, k ∈ [kHookCommandReset, kHookCommandDump, kHookCommandAESEncrypt,
      kHookCommandAESDecrypt, kHookCommandCall] → k < 2 ^ 32) ∧
    (∀ tag,
      (dispatch tag = Action.Reset ↔ tag = kHookCommandReset) ∧
      (dispatch tag = Action.Dump ↔ tag = kHookCommandDump) ∧
      (dispatch tag = Action.AESEncrypt ↔ tag = kHookCommandAESEncrypt) ∧
      (dispatch tag = Action.AESDecrypt ↔ tag = kHookCommandAESDecrypt) ∧
      (dispatch tag = Action.Call ↔ tag = kHookCommandCall) ∧
      (dispatch tag = Action.Fallback ↔
        tag ≠ kHookCommandReset ∧ tag ≠ kHookCommandDump ∧ tag ≠ kHookCommandAESEncrypt ∧
        tag ≠ kHookCommandAESDecrypt ∧ tag ≠ kHookCommandCall)) ∧
    hook cfg ext ret_addr state m =
      perform (dispatch (load32 m (load32 m state))) cfg ext ret_addr state m ∧
    (∀ m2 : Mem, load32 m2 state = load32 m state →
      (∀ i, i < 4 → m2 ((load32 m state + i) % 2 ^ 32) = m ((load32 m state + i) % 2 ^ 32)) →
      dispatch (load32 m2 (load32 m2 state)) = dispatch (load32 m (load32 m state))) := by
  have d1 : kHookCommandDump ≠ kHookCommandReset := by decide
  have d2 : kHookCommandAESEncrypt ≠ kHookCommandReset := by decide
  have d3 : kHookCommandAESDecrypt ≠ kHookCommandReset := by decide
  have d4 : kHookCommandCall ≠ kHookCommandReset := by decide
  have d5 : kHookCommandAESEncrypt ≠ kHookCommandDump := by decide
  have d6 : kHookCommandAESDecrypt ≠ kHookCommandDump := by decide
  have d7 : kHookCommandCall ≠ kHookCommandDump := by decide
  have d8 : kHookCommandCall ≠ kHookCommandAESEncrypt := by decide
  have d9 : kHookCommandCall ≠ kHookCommandAESDecrypt := by decide
  have d10 : kHookCommandAESDecrypt ≠ kHookCommandAESEncrypt := by decide
  refine ⟨by decide, by decide, ?_, ?_, ?_⟩
  · intro tag
    unfold dispatch
    by_cases t1 : tag = kHookCommandReset
    · subst t1; simp [d1.symm, d2.symm, d3.symm, d4.symm]
    by_cases t2 : tag = kHookCommandDump
    · subst t2; simp [d1, d5.symm, d6.symm, d7.symm]
    by_cases t3 : tag = kHookCommandAESEncrypt
    · subst t3; simp [d2, d5, d10.symm, d8.symm]
    by_cases t4 : tag = kHookCommandAESDecrypt
    · subst t4; simp [d3, d6, d10, d9.symm]
    by_cases t5 : tag = kHookCommandCall
    · subst t5; simp [d4, d7, d8, d9]
    simp [t1, t2, t3, t4, t5]
  · unfold dispatch
    by_cases t1 : load32 m (load32 m state) = kHookCommandReset
    · rw [hook_reset cfg ext ret_addr state m t1, if_pos t1]
      rfl
    by_cases t2 : load32 m (load32 m state) = kHookCommandDump
    · rw [hook_dump cfg ext ret_addr state m t2, if_neg t1, if_pos t2]
      rfl
    by_cases t3 : load32 m (load32 m state) = kHookCommandAESEncrypt
    · rw [if_neg t1, if_neg t2, if_pos t3]
      have t4 : load32 m (load32 m state) ≠ kHookCommandAESDecrypt := by
        rw [t3]; exact d10.symm
      unfold hook perform aes_block
      simp only [t3, d2, d5, d10.symm, if_false, if_true, true_or, Bool.false_eq_true]
    by_cases t4 : load32 m (load32 m state) = kHookCommandAESDecrypt
    · rw [if_neg t1, if_neg t2, if_neg t3, if_pos t4]
      unfold hook perform aes_block
      simp only [t4, d3, d6, d10, if_false, if_true, or_true]
    by_cases t5 : load32 m (load32 m state) = kHookCommandCall
    · rw [if_neg t1, if_neg t2, if_neg t3, if_neg t4, if_pos t5]
      unfold hook perform
      simp only [t5, d4, d7, d8, d9, if_false, if_true, or_self]
    · rw [hook_default cfg ext ret_addr state m t1 t2 t3 t4 t5, if_neg t1, if_neg t2,
        if_neg t3, if_neg t4, if_neg t5]
      rfl
  · intro m2 hst h
    rw [hst, load32_congr m2 m (load32 m state) h]

/-- C15: the bundled `memcpy` behaves as `memmove`.  For `len < 2 ^ 31` and source and
destination ranges inside the address space, overlapping or not and in either order,
every `dst[i]` ends up with the byte `src[i]` held before the call, every byte outside
`[dst, dst + len)` is unchanged, the loop does exactly `len` stores (one per
iteration) and `dst` is returned.  For `len = 0` the loop body never runs, memory is
untouched, although `pos` starts at `(int)(0 - 1) = -1` when `dst > src`. -/
theorem C15_memcpy_is_memmove (m : Mem) (dst src len : Nat)
    (hlen : len < 2 ^ 31)
    (hdst : dst + len ≤ 2 ^ 32)
    (hsrc : src + len ≤ 2 ^ 32) :
    (∀ i, i < len → (memcpy m dst src len).mem (dst + i) = m (src + i)) ∧
    (∀ a, (a < dst ∨ dst + len ≤ a) → (memcpy m dst src len).mem a = m a) ∧
    (memcpy m dst src len).stores = len ∧
    (memcpy m dst src len).ret = dst ∧
    toInt32 (sub32 0 1) = -1 ∧
    (∀ (pos dir : Int) (k : Nat), memcpy_loop dst src dir 0 pos m k = (m, k)) ∧
    (memcpy m dst src 0).mem = m ∧
    (memcpy m dst src 0).stores = 0 := by
  refine ⟨?_, ?_, memcpy_stores _ _ _ _, rfl, by decide, fun _ _ _ => rfl, rfl, rfl⟩
  · intro i hi
    have key := memcpy_value m dst src len (by omega) (fun _ => hsrc) (fun _ => hdst) i hi
    rw [Nat.mod_eq_of_lt (by omega : dst + i < 2 ^ 32),
      Nat.mod_eq_of_lt (by omega : src + i < 2 ^ 32)] at key
    exact key
  · intro a ha
    apply memcpy_frame
    intro i hi
    rw [Nat.mod_eq_of_lt (by omega : dst + i < 2 ^ 32)]
    omega

/-- Instance of C15: a backward-overlapping copy of 5 bytes (`dst = src + 2`). -/
theorem C15_memcpy_is_memmove_witness :
    (∀ i, i < 5 → (memcpy rampMem 0x12 0x10 5).mem (0x12 + i) = rampMem (0x10 + i)) ∧
    (∀ a, (a < 0x12 ∨ 0x12 + 5 ≤ a) → (memcpy rampMem 0x12 0x10 5).mem a = rampMem a) ∧
    (memcpy rampMem 0x12 0x10 5).stores = 5 ∧
    (memcpy rampMem 0x12 0x10 5).ret = 0x12 ∧
    toInt32 (sub32 0 1) = -1 ∧
    (∀ (pos dir : Int) (k : Nat), memcpy_loop 0x12 0x10 dir 0 pos rampMem k = (rampMem, k)) ∧
    (memcpy rampMem 0x12 0x10 0).mem = rampMem ∧
    (memcpy rampMem 0x12 0x10 0).stores = 0 :=
  C15_memcpy_is_memmove rampMem 0x12 0x10 5 (by decide) (by decide) (by decide)

/-- C16: in an accepted AES command the length handed to `memcpy` (the number of
bytes it stores) is `(len - off) mod 2 ^ 32` with `off = 16` when `iv_hack` is set and
`0` otherwise: `2 ^ 32 - 16 + len` (neither 0 nor at most 64) for `iv_hack` set and
`len < 16`, `len - 16 <= 48` for `iv_hack` set and `16 <= len <= 64`, and `len` for
`iv_hack` clear. -/
theorem C16_aes_copy_length (cfg : Config) (ext : Ext) (ret_addr state : Nat) (m : Mem)
    (buf len key iv : Nat)
    (hbuf : load32 m state = buf)
    (htag : load32 m buf = kHookCommandAESEncrypt ∨ load32 m buf = kHookCommandAESDecrypt)
    (hlen : load32 m (buf + 4) = len)
    (hkey : load32 m (buf + 8) = key)
    (hiv : load32 m (buf + 12) = iv)
    (hle : len ≤ MAX_OUT_LEN) :
    (hook cfg ext ret_addr state m).copied
      = (((len : Int) - (if iv ≠ 0 then 0x10 else 0x0)) % 2 ^ 32).toNat ∧
    (hook cfg ext ret_addr state m).mem =
      (memcpy
        (if load32 m buf = kHookCommandAESDecrypt then
          ext.aes_decrypt (index buf 16) (index buf 16) len (toInt32 key) 0 0 m
         else ext.aes_encrypt (index buf 16) (index buf 16) len (toInt32 key) 0 0 m)
        buf (index (index buf 16) (if iv ≠ 0 then 0x10 else 0x0))
        (hook cfg ext ret_addr state m).copied).mem ∧
    (iv ≠ 0 → len < 16 →
      (hook cfg ext ret_addr state m).copied = 2 ^ 32 - 16 + len ∧
      (hook cfg ext ret_addr state m).copied ≠ 0 ∧
      MAX_OUT_LEN < (hook cfg ext ret_addr state m).copied) ∧
    (iv ≠ 0 → 16 ≤ len →
      (hook cfg ext ret_addr state m).copied = len - 16 ∧
      (hook cfg ext ret_addr state m).copied ≤ 48) ∧
    (iv = 0 → (hook cfg ext ret_addr state m).copied = len) := by
  have hm : len ≤ 64 := hle
  obtain ⟨_, hcop, hmem⟩ :=
    hook_aes_ok cfg ext ret_addr state m buf len key iv hbuf htag hlen hkey hiv hle
  have hmax : MAX_OUT_LEN = 64 := rfl
  refine ⟨hcop, ?_, ?_, ?_, ?_⟩
  · rw [hcop]; exact hmem
  · intro h1 h2
    rw [hcop, hmax, if_pos h1]
    unfold sub32
    omega
  · intro h1 h2
    rw [hcop, if_pos h1]
    unfold sub32
    omega
  · intro h1
    have h2 : ¬ iv ≠ 0 := fun h => h h1
    rw [hcop, if_neg h2]
    unfold sub32
    omega

/-- Instance of C16 with `iv_hack` set and `len = 0`. -/
theorem C16_aes_copy_length_witness :
    (hook s5l8723 toyExt 0x2000 0x100 memAesShort).copied = 2 ^ 32 - 16 + 0 ∧
    (hook s5l8723 toyExt 0x2000 0x100 memAesShort).copied ≠ 0 ∧
    MAX_OUT_LEN < (hook s5l8723 toyExt 0x2000 0x100 memAesShort).copied :=
  (C16_aes_copy_length s5l8723 toyExt 0x2000 0x100 memAesShort 0x1000 0 0 1
    (by decide) (by decide) (by decide) (by decide) (by decide) (by decide)).2.2.1
    (by decide) (by decide)

/-- C17: frame of a successful AES command.  Assume the cipher routine changes no byte
outside the `len` bytes of its output argument.  For `len <= 64` and `iv_hack` clear or
`len >= 16`, with `n = len - off` the number of result bytes: every byte outside the
result `[0, n)` is as the cipher routine left it (so its in-place output stays in the
buffer), every byte outside `[0, n)` and `[16, 16 + len)` is unchanged, and in
particular every byte at offset `>= 16 + len` is unchanged. -/
theorem C17_aes_frame (cfg : Config) (ext : Ext) (ret_addr state : Nat) (m : Mem)
    (buf len key iv : Nat)
    (hbuf : load32 m state = buf)
    (htag : load32 m buf = kHookCommandAESEncrypt ∨ load32 m buf = kHookCommandAESDecrypt)
    (hlen : load32 m (buf + 4) = len)
    (hkey : load32 m (buf + 8) = key)
    (hiv : load32 m (buf + 12) = iv)
    (hle : len ≤ MAX_OUT_LEN)
    (hacc : iv = 0 ∨ 16 ≤ len)
    (hnw : buf + 16 + len < 2 ^ 32)
    (henc : ∀ a, (a < buf + 16 ∨ buf + 16 + len ≤ a) →
      (ext.aes_encrypt (buf + 16) (buf + 16) len (toInt32 key) 0 0 m) a = m a)
    (hdec : ∀ a, (a < buf + 16 ∨ buf + 16 + len ≤ a) →
      (ext.aes_decrypt (buf + 16) (buf + 16) len (toInt32 key) 0 0 m) a = m a) :
    (∀ a, (a < buf ∨ buf + (len - (if iv ≠ 0 then 16 else 0)) ≤ a) →
      (hook cfg ext ret_addr state m).mem a =
        (if load32 m buf = kHookCommandAESDecrypt then
          ext.aes_decrypt (buf + 16) (buf + 16) len (toInt32 key) 0 0 m
         else ext.aes_encrypt (buf + 16) (buf + 16) len (toInt32 key) 0 0 m) a) ∧
    (∀ a, (a < buf ∨ buf + (len - (if iv ≠ 0 then 16 else 0)) ≤ a) →
      (a < buf + 16 ∨ buf + 16 + len ≤ a) → (hook cfg ext ret_addr state m).mem a = m a) ∧
    (∀ a, buf + 16 + len ≤ a → (hook cfg ext ret_addr state m).mem a = m a) := by
  have hm : len ≤ 64 := hle
  have e16 : index buf 16 = buf + 16 := by unfold index; omega
  obtain ⟨_, _, hmem⟩ :=
    hook_aes_ok cfg ext ret_addr state m buf len key iv hbuf htag hlen hkey hiv hle
  rw [e16] at hmem
  have hs : sub32 len (if iv ≠ 0 then 0x10 else 0x0) = len - (if iv ≠ 0 then 16 else 0) := by
    unfold sub32
    by_cases h : iv = 0
    · simp only [ne_eq, h, not_true_eq_false, if_false]
      omega
    · have : 16 ≤ len := by
        rcases hacc with h' | h'
        · exact absurd h' h
        · exact h'
      simp only [ne_eq, h, not_false_eq_true, if_true]
      omega
  rw [hs] at hmem
  have hciph : ∀ a, (a < buf + 16 ∨ buf + 16 + len ≤ a) →
      (if load32 m buf = kHookCommandAESDecrypt then
        ext.aes_decrypt (buf + 16) (buf + 16) len (toInt32 key) 0 0 m
       else ext.aes_encrypt (buf + 16) (buf + 16) len (toInt32 key) 0 0 m) a = m a := by
    intro a ha
    split
    · exact hdec a ha
    · exact henc a ha
  have hframe : ∀ a, (a < buf ∨ buf + (len - (if iv ≠ 0 then 16 else 0)) ≤ a) →
      (hook cfg ext ret_addr state m).mem a =
        (if load32 m buf = kHookCommandAESDecrypt then
          ext.aes_decrypt (buf + 16) (buf + 16) len (toInt32 key) 0 0 m
         else ext.aes_encrypt (buf + 16) (buf + 16) len (toInt32 key) 0 0 m) a := by
    intro a ha
    rw [hmem]
    apply memcpy_frame
    intro i hi
    have hi2 : i < len := by omega
    rw [Nat.mod_eq_of_lt (by omega : buf + i < 2 ^ 32)]
    omega
  refine ⟨hframe, ?_, ?_⟩
  · intro a ha hb
    rw [hframe a ha]
    exact hciph a hb
  · intro a ha
    rw [hframe a (Or.inr (by omega))]
    exact hciph a (Or.inr ha)

/-- Instance of C17 on the decryption of 32 bytes with `iv_hack` set: the byte right
after the inline data is unchanged. -/
theorem C17_aes_frame_witness :
    (hook s5l8723 toyExt 0x2000 0x100 memAesHack).mem (0x1000 + 16 + 32)
      = memAesHack (0x1000 + 16 + 32) :=
  (C17_aes_frame s5l8723 toyExt 0x2000 0x100 memAesHack 0x1000 32 2 1
    (by decide) (by decide) (by decide) (by decide) (by decide) (by decide) (by decide)
    (by decide)
    (by
      intro a ha
      simp only [toyExt]
      rw [if_neg (by omega)])
    (by
      intro a ha
      simp only [toyExt]
      rw [if_neg (by omega)])).2.2 (0x1000 + 16 + 32) (by decide)

/-- C18: the standalone `src/hook.c`, with the bundled `memcpy` as the `memcpy` of the
`libc.c` it includes, and `src/shellcode/hook.c` built with the `s5l8723`
configuration do the same on every state pointer, memory and behaviour of the external
routines: same status, same memory (hence same buffer contents), same external calls
with the same target addresses and arguments, same number of bytes copied.  The
configuration has `EFI = 1` and the addresses and `SRAM_BASE` the standalone file
hard-codes. -/
theorem C18_standalone_equals_shellcode (ext : Ext) (ret_addr state : Nat) (m : Mem) :
    Standalone.hook memcpy ext ret_addr state m = hook s5l8723 ext ret_addr state m ∧
    s5l8723.EFI = true ∧
    s5l8723.SRAM_BASE = Standalone.SRAM_BASE ∧
    s5l8723.TARGET_USB_SHUTDOWN = Standalone.usb_shutdown ∧
    s5l8723.TARGET_STATE_SET = Standalone.state_set ∧
    s5l8723.TARGET_REBOOT = Standalone.reboot ∧
    s5l8723.TARGET_AES_DECRYPT = Standalone.aes_decrypt ∧
    s5l8723.TARGET_AES_ENCRYPT = Standalone.aes_encrypt ∧
    s5l8723.TARGET_JUMP = Standalone.prepare_and_jump :=
  ⟨rfl, rfl, rfl, rfl, rfl, rfl, rfl, rfl, rfl⟩

end S5Late
